import Mathlib

/-!
Verification of the ctf-proxy log-ingestion engine.

This file gives a shallow embedding, in Lean, of the parts of the
ctf-proxy source that the checked properties are about:

* counter tables and `increment` upserts (`db/models.py`, `db/stats.py`);
* the `execute_sql` query vetting and rewriting (`db/models.py`);
* the tap spool (`logs_processor/taps.py`) and its HTTP subclass;
* the access-log reader and the HTTP batch pass (`logs_processor/access_log.py`,
  `logs_processor/http.py`);
* the session tracker (`logs_processor/sessions.py`);
* the flag scanner (`logs_processor/flags.py`) together with a model of the
  backtracking regex engine that `re.finditer` uses on the patterns that occur.

Python strings are modelled as lists of characters (`Str`), SQL tables as
functions from their key to an optional row, dictionaries as functions from
keys to optional values, and sets as boolean-valued functions.  Machine
integers are modelled as `Int`/`Nat` (SQLite integers are arbitrary
precision, as are Python ints, so no wrap-around is involved).
-/

/-- Python strings, modelled as lists of characters so that every operation
reduces in the kernel. -/
abbrev Str := List Char

/-- Pointwise update of a function-backed map or set at one key. -/
def fupd {α β : Type} [DecidableEq α] (f : α → β) (k : α) (v : β) : α → β :=
  fun x => if x = k then v else f x

/-- ASCII apostrophe, used when mirroring Python string literals. -/
def squoteChar : Char := Char.ofNat 39

/-! ## JSON values

Tap files and access-log lines are parsed JSON documents (`json.load` /
`json.loads`).  Numbers are modelled as integers only; no applicable code
path depends on float values. -/

inductive Json where
  | null
  | bool (b : Bool)
  | num (n : Int)
  | str (s : Str)
  | arr (l : List Json)
  | obj (l : List (Str × Json))

/-- Python truthiness of a parsed JSON value (`if data:` and friends). -/
def Json.truthy : Json → Bool
  | .null => false
  | .bool b => b
  | .num n => n != 0
  | .str s => !s.isEmpty
  | .arr l => !l.isEmpty
  | .obj l => !l.isEmpty

/-- Python truthiness of `dict.get(key)` results (`None` is falsy). -/
def jsonOptTruthy : Option Json → Bool
  | none => false
  | some j => j.truthy

/-- Dictionary lookup `d.get(key)` on a JSON object; `none` both when the
value is not an object and when the key is missing. -/
def Json.get : Json → Str → Option Json
  | .obj l, k => (l.find? (fun p => p.1 = k)).map Prod.snd
  | _, _ => none

/-- Dictionary lookup with an object default: `d.get(key, {})`. -/
def Json.getD (j : Json) (k : Str) : Json :=
  match j.get k with
  | some v => v
  | none => .obj []

/-! ## db/base.py : RowStatus -/

/-- Mirror of `RowStatus` in `db/base.py`. -/
inductive RowStatus where
  | NEW
  | UPDATED
deriving DecidableEq, Repr

/-! ## db/models.py : HttpPathStatsTable

The `http_path_stats` table keyed by `(port, path)` with a single `count`
column, modelled as a partial function from the key to the count.
-/

/-- State of the `http_path_stats` table: key `(port, path)`, value `count`. -/
abbrev HttpPathStatsState := Nat × Str → Option Int

/-- Mirror of `HttpPathStatsTable.increment` (`db/models.py` lines 553-575):
`UPDATE ... SET count = count + ? WHERE port = ? AND path = ?`; if no row was
affected, `INSERT (port, path, count)` with the delta as initial count and
report `NEW`, else report `UPDATED`. -/
def HttpPathStatsTable.increment (tbl : HttpPathStatsState) (port : Nat) (path : Str)
    (count : Int) : HttpPathStatsState × RowStatus :=
  match tbl (port, path) with
  | some c => (fupd tbl (port, path) (some (c + count)), RowStatus.UPDATED)
  | none => (fupd tbl (port, path) (some count), RowStatus.NEW)

/-- Mirror of `AlertRow.Insert` (`db/models.py`), restricted to the fields the
HTTP tap processor sets. -/
structure AlertRow where
  port : Nat
  created : Nat
  description : Str
  http_request_id : Nat
  http_response_id : Nat
deriving DecidableEq, Repr

/-- The alert description `f"New path: '{full_path}'"` built by
`HttpTapProcessor.process_tap`. -/
def newPathDescription (full_path : Str) : Str :=
  "New path: ".toList ++ [squoteChar] ++ full_path ++ [squoteChar]

/-- The slice of the database state that the path-stats part of
`HttpTapProcessor.process_tap` reads and writes. -/
structure HttpPathDbSlice where
  http_path_stats : HttpPathStatsState
  alerts : List AlertRow

/-- Mirror of `HttpTapProcessor.process_tap`, lines 276-294 of
`logs_processor/http.py`: inside the `if port:` guard, increment
`http_path_stats(port, path)` by one and, exactly when the increment reports
`NEW`, insert one alert with description `"New path: '<full_path>'"` linked to
the current request and response rows. -/
def HttpTapProcessor.processTapPathStats (db : HttpPathDbSlice) (port : Nat)
    (path full_path : Str) (request_id response_id now : Nat) : HttpPathDbSlice :=
  if port ≠ 0 then
    let r := HttpPathStatsTable.increment db.http_path_stats port path 1
    let db1 : HttpPathDbSlice := { db with http_path_stats := r.1 }
    if r.2 = RowStatus.NEW then
      { db1 with
        alerts := db1.alerts ++
          [{ port := port, created := now, description := newPathDescription full_path,
             http_request_id := request_id, http_response_id := response_id }] }
    else db1
  else db

/-! ## db/models.py : ServiceStatsTable -/

/-- Counter columns of one `service_stats` row (`db/models.py`).  The SQL
`UPDATE` in `ServiceStatsTable.increment` touches exactly these seven
columns. -/
structure ServiceStatsCounters where
  total_requests : Int
  total_blocked_requests : Int
  total_responses : Int
  total_blocked_responses : Int
  total_flags_written : Int
  total_flags_retrieved : Int
  total_flags_blocked : Int
deriving DecidableEq, Repr

/-- Mirror of `ServiceStatsRow.Increment`: the dataclass also carries
`total_tcp_connections`, `total_tcp_bytes_in` and `total_tcp_bytes_out`,
which the `UPDATE` statement of `ServiceStatsTable.increment` does not
reference, so they are modelled and then ignored exactly as in the source. -/
structure ServiceStatsIncrement where
  port : Nat
  total_requests : Int := 0
  total_blocked_requests : Int := 0
  total_responses : Int := 0
  total_blocked_responses : Int := 0
  total_flags_written : Int := 0
  total_flags_retrieved : Int := 0
  total_flags_blocked : Int := 0
  total_tcp_connections : Int := 0
  total_tcp_bytes_in : Int := 0
  total_tcp_bytes_out : Int := 0
deriving DecidableEq, Repr

/-- Effect of the `UPDATE service_stats SET c = c + ? ...` statement on the
row it matches. -/
def ServiceStatsTable.applyDelta (row : ServiceStatsCounters)
    (inc : ServiceStatsIncrement) : ServiceStatsCounters where
  total_requests := row.total_requests + inc.total_requests
  total_blocked_requests := row.total_blocked_requests + inc.total_blocked_requests
  total_responses := row.total_responses + inc.total_responses
  total_blocked_responses := row.total_blocked_responses + inc.total_blocked_responses
  total_flags_written := row.total_flags_written + inc.total_flags_written
  total_flags_retrieved := row.total_flags_retrieved + inc.total_flags_retrieved
  total_flags_blocked := row.total_flags_blocked + inc.total_flags_blocked

/-- Modelled from the spec: the row created by
`ServiceStatsTable.insert(tx, Insert(port=port))`.  The `INSERT` names only
the `port` column; the counter defaults come from `db/schema.sql`, which is
not part of the provided sources.  Spec 4.A: `service_stats.increment` must
insert a zero-row on first touch of a port. -/
def ServiceStatsTable.insertRow : ServiceStatsCounters where
  total_requests := 0
  total_blocked_requests := 0
  total_responses := 0
  total_blocked_responses := 0
  total_flags_written := 0
  total_flags_retrieved := 0
  total_flags_blocked := 0

/-- State of the `service_stats` table, keyed by port. -/
abbrev ServiceStatsState := Nat → Option ServiceStatsCounters

/-- Mirror of `ServiceStatsTable.increment` (`db/models.py` lines 446-472):
`UPDATE` the row for the port; when no row was affected, `INSERT` the
zero-row for the port and run the same `UPDATE` again (which then affects the
fresh row exactly once). -/
def ServiceStatsTable.increment (tbl : ServiceStatsState)
    (inc : ServiceStatsIncrement) : ServiceStatsState :=
  match tbl inc.port with
  | some row => fupd tbl inc.port (some (ServiceStatsTable.applyDelta row inc))
  | none =>
    fupd tbl inc.port (some (ServiceStatsTable.applyDelta ServiceStatsTable.insertRow inc))

/-- Iterated application of `ServiceStatsTable.increment` with a fixed
increment row. -/
def ServiceStatsTable.incrementIter (tbl : ServiceStatsState)
    (inc : ServiceStatsIncrement) : Nat → ServiceStatsState
  | 0 => tbl
  | k + 1 => ServiceStatsTable.increment (ServiceStatsTable.incrementIter tbl inc k) inc

/-- Field-wise scaling of an increment row by `k` (the delta `k*x` of the
claim). -/
def ServiceStatsIncrement.scale (k : Nat) (inc : ServiceStatsIncrement) :
    ServiceStatsIncrement where
  port := inc.port
  total_requests := k * inc.total_requests
  total_blocked_requests := k * inc.total_blocked_requests
  total_responses := k * inc.total_responses
  total_blocked_responses := k * inc.total_blocked_responses
  total_flags_written := k * inc.total_flags_written
  total_flags_retrieved := k * inc.total_flags_retrieved
  total_flags_blocked := k * inc.total_flags_blocked
  total_tcp_connections := k * inc.total_tcp_connections
  total_tcp_bytes_in := k * inc.total_tcp_bytes_in
  total_tcp_bytes_out := k * inc.total_tcp_bytes_out

/-! ## db/stats.py : HttpPathTimeStatsTable -/

/-- Key of the `http_path_time_stats` table: `(port, method, path, time)`. -/
abbrev HttpPathTimeKey := Nat × Str × Str × Nat

/-- State of the `http_path_time_stats` table. -/
abbrev HttpPathTimeStatsState := HttpPathTimeKey → Option Int

/-- Mirror of `HttpPathTimeStatsTable.increment` (`db/stats.py` lines 66-96):
`UPDATE ... SET count = count + ?`; if no row was affected, `INSERT` with the
delta as initial count, returning `NEW`/`UPDATED` accordingly. -/
def HttpPathTimeStatsTable.increment (tbl : HttpPathTimeStatsState)
    (port : Nat) (method path : Str) (time : Nat) (count : Int) :
    HttpPathTimeStatsState × RowStatus :=
  match tbl (port, method, path, time) with
  | some c => (fupd tbl (port, method, path, time) (some (c + count)), RowStatus.UPDATED)
  | none => (fupd tbl (port, method, path, time) (some count), RowStatus.NEW)

/-- Iterated application of `HttpPathTimeStatsTable.increment` with a fixed
key and delta, discarding the row status like the caller in
`logs_processor/http.py` does. -/
def HttpPathTimeStatsTable.incrementIter (tbl : HttpPathTimeStatsState)
    (port : Nat) (method path : Str) (time : Nat) (count : Int) :
    Nat → HttpPathTimeStatsState
  | 0 => tbl
  | k + 1 =>
    (HttpPathTimeStatsTable.increment
      (HttpPathTimeStatsTable.incrementIter tbl port method path time count k)
      port method path time count).1

/-! ## db/models.py : ProxyStatsDB.execute_sql

Only the query vetting and rewriting is modelled; the actual row fetching
runs in SQLite.  The function below returns `Except` with the `ValueError`
message on the rejection path and the final query text passed to
`cursor.execute` on the accepted path.
-/

/-- Python `str.strip()` on the characters Lean classifies as whitespace. -/
def pyStrip (s : Str) : Str :=
  ((s.dropWhile Char.isWhitespace).reverse.dropWhile Char.isWhitespace).reverse

/-- Python `str.rstrip()`. -/
def pyRstrip (s : Str) : Str :=
  (s.reverse.dropWhile Char.isWhitespace).reverse

/-- Python `str.upper()` (the queries involved are ASCII). -/
def pyUpper (s : Str) : Str := s.map Char.toUpper

/-- The loop `while query.endswith(";"): query = query[:-1].rstrip()` of
`execute_sql`; each pass shortens the string, so the length of the input is
enough fuel for the fuel-indexed rendering of the loop. -/
def stripTrailingSemis : Nat → Str → Str
  | 0, s => s
  | f + 1, s =>
    if s.getLast? = some ';' then stripTrailingSemis f (pyRstrip s.dropLast) else s

/-- The query normalisation prefix of `execute_sql`: `query.strip()` followed
by the trailing-semicolon loop. -/
def stripQuery (s : Str) : Str :=
  let t := pyStrip s
  stripTrailingSemis t.length t

/-- Substring test, mirroring Python `needle in hay`. -/
def containsSub (hay needle : Str) : Bool :=
  match hay with
  | [] => needle.isEmpty
  | _ :: t => needle.isPrefixOf hay || containsSub t needle

/-- Decimal rendering of the default limit interpolated into the query. -/
def natStr (n : Nat) : Str := (Nat.repr n).toList

/-- Mirror of the vetting and rewriting part of `ProxyStatsDB.execute_sql`
(`db/models.py` lines 835-912): strip the query and its trailing semicolons,
reject with `ValueError` when the upper-cased text does not start with
`SELECT`, and append `LIMIT default_limit` when `default_limit` is truthy and
the upper-cased text nowhere contains the substring `LIMIT`.  The returned
string is the text handed to `cursor.execute`. -/
def ProxyStatsDB.executeSqlQuery (query : Str) (default_limit : Nat) : Except Str Str :=
  let q := stripQuery query
  let qu := pyUpper q
  if !(List.isPrefixOf "SELECT".toList qu) then
    Except.error "Only SELECT queries are allowed".toList
  else if default_limit ≠ 0 && !(containsSub qu "LIMIT".toList) then
    Except.ok (q ++ " LIMIT ".toList ++ natStr default_limit)
  else
    Except.ok q

/-- Spec-side reading (refinement target, not translated from the source): a
query text is a single `SELECT` statement when, after the same normalisation
`execute_sql` performs, it starts with `SELECT` (case-insensitively) and
contains no statement separator `;`.  String literals inside queries are not
modelled; the inputs this predicate is applied to contain none. -/
def specSingleSelectStatement (query : Str) : Bool :=
  let q := stripQuery query
  List.isPrefixOf "SELECT".toList (pyUpper q) && !q.contains ';'

/-! ## logs_processor/tcp.py : byte-bucket computation -/

/-- One entry of `socket_buffered_trace.events` as the processor
distinguishes them (`"read" in event` / `elif "write" in event` /
`elif "closed" in event`).  The payload carries the base64-decoded bytes of
`event[kind]["data"]["as_bytes"]` (a missing field decodes to the empty byte
string). -/
inductive TcpEvent where
  | read (payload : List Nat)
  | write (payload : List Nat)
  | closed
  | other
deriving DecidableEq, Repr

/-- Mirror of the accumulation loop of `TcpTapProcessor.process_tap`
(`logs_processor/tcp.py` lines 129-156): running `(total_read_bytes,
total_write_bytes)` over the event list. -/
def TcpTapProcessor.accumulateTotals (events : List TcpEvent) : Nat × Nat :=
  events.foldl
    (fun acc e =>
      match e with
      | .read p => (acc.1 + p.length, acc.2)
      | .write p => (acc.1, acc.2 + p.length)
      | _ => acc)
    (0, 0)

/-- The four byte-bucket bounds written to `tcp_connection_stats` and
`tcp_connection_time_stats`. -/
structure TcpBuckets where
  read_min : Nat
  read_max : Nat
  write_min : Nat
  write_max : Nat
deriving DecidableEq, Repr

/-- Mirror of the bucket computation of `TcpTapProcessor.process_tap`
(`logs_processor/tcp.py` lines 263-267). -/
def TcpTapProcessor.computeBuckets (total_read_bytes total_write_bytes precision : Nat) :
    TcpBuckets :=
  let read_min := total_read_bytes / precision * precision
  let read_max := read_min + precision
  let write_min := total_write_bytes / precision * precision
  let write_max := write_min + precision
  { read_min := read_min, read_max := read_max,
    write_min := write_min, write_max := write_max }

/-- The per-service configuration fields the TCP processor reads.  Pydantic
declares `tcp_connection_stats_precision: int` with default 100 and no sign
constraint; the bucket theorems therefore assume a positive precision. -/
structure ServiceConfig where
  tcp_connection_stats_precision : Nat
deriving DecidableEq, Repr

/-- Mirror of `precision = service.tcp_connection_stats_precision if service
else 100` (`logs_processor/tcp.py` line 262). -/
def TcpTapProcessor.resolvePrecision : Option ServiceConfig → Nat
  | some s => s.tcp_connection_stats_precision
  | none => 100

/-- The bucket row produced for one processed TCP tap with a known port:
totals accumulated over the events, then bucketed with the resolved
precision (`logs_processor/tcp.py` lines 260-292). -/
def TcpTapProcessor.processTapBuckets (events : List TcpEvent)
    (service : Option ServiceConfig) : TcpBuckets :=
  let precision := TcpTapProcessor.resolvePrecision service
  let totals := TcpTapProcessor.accumulateTotals events
  TcpTapProcessor.computeBuckets totals.1 totals.2 precision

/-! ## logs_processor/taps.py : TapsFolder

The folder state is parametric in an index type `ι` with a hook
`ι → Str → Json → ι` standing for the subclass method `on_file_loaded`
(trivial in the base class, the `request_id → file` map in
`HttpTapsFolder`).  The directory is a list of entries; `content` is the
result of opening and JSON-parsing the file of that name (`none` covers both
an unreadable file and a JSON parse failure, which the source handles with
the same `except` branch). -/

/-- One `os.scandir` entry of the tap directory together with the outcome of
opening and parsing the file of that name. -/
structure DirEntry where
  name : Str
  isFile : Bool
  content : Option Json

/-- State of a `TapsFolder` (`logs_processor/taps.py`): the parsed-file
cache, the removal schedule, the directory-removal schedule, the per-file
failure counters, and the subclass index. -/
structure TapsFolder (ι : Type) where
  cache : Str → Option Json
  to_remove : Str → Bool
  dirs_to_remove : Str → Bool
  failed_to_load : Str → Option Nat
  index : ι

/-- Mirror of the class attribute `max_load_retries = 3`. -/
def TapsFolder.max_load_retries : Nat := 3

/-- The state built by `TapsFolder.__init__`: everything empty. -/
def TapsFolder.init {ι : Type} (index : ι) : TapsFolder ι where
  cache := fun _ => none
  to_remove := fun _ => false
  dirs_to_remove := fun _ => false
  failed_to_load := fun _ => none
  index := index

/-- Mirror of `TapsFolder.try_load_file` (`logs_processor/taps.py` lines
31-47): on parse success cache the data and run the `on_file_loaded` hook; on
failure initialise the per-file counter to 0 if absent, increment it, and
once it reaches `max_load_retries` schedule the file for removal. -/
def TapsFolder.try_load_file {ι : Type} (hook : ι → Str → Json → ι)
    (st : TapsFolder ι) (filename : Str) (content : Option Json) : TapsFolder ι :=
  match content with
  | some data =>
    { st with
      cache := fupd st.cache filename (some data)
      index := hook st.index filename data }
  | none =>
    let base := match st.failed_to_load filename with
      | none => 0
      | some v => v
    let cnt := base + 1
    let st1 := { st with failed_to_load := fupd st.failed_to_load filename (some cnt) }
    if TapsFolder.max_load_retries ≤ cnt then
      { st1 with to_remove := fupd st1.to_remove filename true }
    else st1

/-- Body of the loop of `TapsFolder.refresh` (`logs_processor/taps.py` lines
21-29) for one directory entry: skip names already cached or scheduled for
removal; load `.json` files; schedule other files for removal; ignore
non-file entries. -/
def TapsFolder.refreshStep {ι : Type} (hook : ι → Str → Json → ι)
    (st : TapsFolder ι) (e : DirEntry) : TapsFolder ι :=
  if (st.cache e.name).isSome || st.to_remove e.name then st
  else if e.isFile then
    if List.isSuffixOf ".json".toList e.name then
      TapsFolder.try_load_file hook st e.name e.content
    else { st with to_remove := fupd st.to_remove e.name true }
  else st

/-- Mirror of `TapsFolder.refresh` (`logs_processor/taps.py` lines 19-29):
run `refreshStep` over the `os.scandir` entries in order. -/
def TapsFolder.refresh {ι : Type} (hook : ι → Str → Json → ι) :
    TapsFolder ι → List DirEntry → TapsFolder ι
  | st, [] => st
  | st, e :: rest => TapsFolder.refresh hook (TapsFolder.refreshStep hook st e) rest

/-- Mirror of `TapsFolder.pop_filename` (`logs_processor/taps.py` lines
52-56): pop the cache entry; schedule the file for removal only when the
popped data is truthy; return the popped data. -/
def TapsFolder.pop_filename {ι : Type} (st : TapsFolder ι) (filename : Str) :
    TapsFolder ι × Option Json :=
  match st.cache filename with
  | none => (st, none)
  | some data =>
    let st1 := { st with cache := fupd st.cache filename none }
    if data.truthy then
      ({ st1 with to_remove := fupd st1.to_remove filename true }, some data)
    else (st1, some data)

/-- Mirror of `TapsFolder.cleanup` (`logs_processor/taps.py` lines 58-75):
delete every scheduled file from the directory (`os.remove` fails on
non-file entries, which then survive; the cache and failure entries are
dropped regardless), clear the removal schedule, then delete scheduled
directories (`shutil.rmtree` fails on file entries) and clear that schedule
too.  Returns the new folder state and the directory content after the
deletions. -/
def TapsFolder.cleanup {ι : Type} (st : TapsFolder ι) (dir : List DirEntry) :
    TapsFolder ι × List DirEntry :=
  let st1 : TapsFolder ι :=
    { st with
      cache := fun n => if st.to_remove n then none else st.cache n
      failed_to_load := fun n => if st.to_remove n then none else st.failed_to_load n
      to_remove := fun _ => false
      dirs_to_remove := fun _ => false }
  let dir1 := dir.filter
    (fun e => !(st.to_remove e.name && e.isFile) && !(st.dirs_to_remove e.name && !e.isFile))
  (st1, dir1)

/-! ## logs_processor/http.py : HttpTapsFolder and the batch pass -/

/-- Scan of a header list for the first entry whose `key` is
`x-request-id`; `some v` means such a header was found and its `value`
lookup produced `v` (`none` inside means the header had no `value` field, in
which case the Python function returns `None` immediately). -/
def findXRequestId : List Json → Option (Option Json)
  | [] => none
  | h :: t =>
    match h.get "key".toList with
    | some (Json.str s) =>
      if s = "x-request-id".toList then some (h.get "value".toList) else findXRequestId t
    | _ => findXRequestId t

/-- The element list of a JSON array value; a missing or non-array value
iterates as empty (the exception branch for non-iterable values ends in the
same `return None` as an unsuccessful scan). -/
def jsonElems : Option Json → List Json
  | some (Json.arr l) => l
  | _ => []

/-- Mirror of `HttpTapsFolder.extract_request_id_from_tap`
(`logs_processor/http.py` lines 55-71): scan the request headers, then the
response headers, for `x-request-id`, returning the `value` of the first hit
(possibly `None`). -/
def HttpTapsFolder.extract_request_id_from_tap (data : Json) : Option Json :=
  let http_trace := data.getD "http_buffered_trace".toList
  let request := http_trace.getD "request".toList
  match findXRequestId (jsonElems (request.get "headers".toList)) with
  | some v => v
  | none =>
    let response := http_trace.getD "response".toList
    match findXRequestId (jsonElems (response.get "headers".toList)) with
    | some v => v
    | none => none

/-- Mirror of `HttpTapsFolder.on_file_loaded` (`logs_processor/http.py`
lines 50-53): index the file under the extracted request id when the id is
truthy.  Header values are strings in every well-formed tap, so the index is
keyed by strings; a non-string id could never equal the string key a later
lookup uses, so such entries are not represented. -/
def HttpTapsFolder.on_file_loaded (index : Str → Option Str) (filename : Str)
    (data : Json) : Str → Option Str :=
  match HttpTapsFolder.extract_request_id_from_tap data with
  | some (Json.str s) => if !s.isEmpty then fupd index s (some filename) else index
  | _ => index

/-- Mirror of `HttpTapsFolder.pop_tap_filename_by_request_id`
(`logs_processor/http.py` lines 73-74): `dict.pop(request_id, None)`. -/
def HttpTapsFolder.pop_tap_filename_by_request_id (index : Str → Option Str)
    (request_id : Str) : (Str → Option Str) × Option Str :=
  match index request_id with
  | some f => (fupd index request_id none, some f)
  | none => (index, none)

/-! ## logs_processor/access_log.py : AccessLogReader -/

/-- One line of the access-log file: the file position right after the line
(`f.tell()`), and the parse result of the stripped line (`none` when the
stripped line is blank or `json.loads` fails). -/
structure LogLine where
  endPos : Nat
  data : Option Json

/-- Mirror of `AccessLogEntry` (`logs_processor/access_log.py`). -/
structure AccessLogEntry where
  data : Json
  end_position : Nat

/-- The read loop of `AccessLogReader.read_new_entries`: walk the remaining
lines, skipping unparsable ones without moving `last_position`, recording
each parsed entry and advancing `last_position` to its end, stopping after
`remaining` entries have been collected.  Returns the entries and the final
in-memory `last_position`. -/
def AccessLogReader.readLoop : List LogLine → Nat → Nat → List AccessLogEntry × Nat
  | [], pos, _ => ([], pos)
  | l :: rest, pos, remaining =>
    match l.data with
    | none => AccessLogReader.readLoop rest pos remaining
    | some d =>
      if remaining ≤ 1 then ([⟨d, l.endPos⟩], l.endPos)
      else
        let r := AccessLogReader.readLoop rest l.endPos (remaining - 1)
        (⟨d, l.endPos⟩ :: r.1, r.2)

/-- Mirror of `AccessLogReader.read_new_entries` (`logs_processor/access_log.py`
lines 26-45).  `last_position` is always 0 or the end position of a
previously consumed line, so `f.seek(last_position)` resumes at the first
line whose end position exceeds it. -/
def AccessLogReader.read_new_entries (file : List LogLine) (last_position : Nat)
    (max_entries : Nat) : List AccessLogEntry × Nat :=
  AccessLogReader.readLoop (file.dropWhile (fun l => l.endPos ≤ last_position))
    last_position max_entries

/-! ## logs_processor/http.py : HttpProcessor.process_new_access_log_entries -/

/-- The string key a `dict` lookup with this JSON value can hit when the
dictionary is keyed by strings (the tap index is; see
`HttpTapsFolder.on_file_loaded`). -/
def streamKey : Option Json → Option Str
  | some (Json.str s) => some s
  | _ => none

/-- State of an `HttpProcessor` as far as offsets and the tap spool are
concerned: the in-memory reader position, the persisted sidecar position,
and the `HttpTapsFolder`. -/
structure HttpProcessorState where
  last_position : Nat
  persisted_position : Nat
  folder : TapsFolder (Str → Option Str)

/-- The per-entry loop body of `HttpProcessor.process_new_access_log_entries`
(`logs_processor/http.py` lines 91-120): skip entries without a truthy
`stream_id`, pop the tap file name from the index, pop the cached tap data,
skip falsy data, and record the consumed tap in `to_archive`.  The call to
`HttpTapProcessor.process_tap` only writes rows inside the enclosing
transaction and its exceptions are caught on the spot, so it can affect
neither the spool nor the offsets nor `to_archive` and is not part of this
state. -/
def HttpProcessor.entryLoop :
    List AccessLogEntry → TapsFolder (Str → Option Str) →
    TapsFolder (Str → Option Str) × List (Str × Json)
  | [], folder => (folder, [])
  | entry :: rest, folder =>
    let log_entry := entry.data
    let stream_id := log_entry.get "stream_id".toList
    if !(jsonOptTruthy stream_id) then HttpProcessor.entryLoop rest folder
    else
      match streamKey stream_id with
      | none => HttpProcessor.entryLoop rest folder
      | some sid =>
        let popIdx := HttpTapsFolder.pop_tap_filename_by_request_id folder.index sid
        let folder1 := { folder with index := popIdx.1 }
        match popIdx.2 with
        | none => HttpProcessor.entryLoop rest folder1
        | some tap_filename =>
          if tap_filename.isEmpty then HttpProcessor.entryLoop rest folder1
          else
            let popData := TapsFolder.pop_filename folder1 tap_filename
            match popData.2 with
            | none => HttpProcessor.entryLoop rest popData.1
            | some d =>
              if !d.truthy then HttpProcessor.entryLoop rest popData.1
              else
                let r := HttpProcessor.entryLoop rest popData.1
                (r.1, (tap_filename, d) :: r.2)

/-- Mirror of `HttpProcessor.process_new_access_log_entries`
(`logs_processor/http.py` lines 85-128): read up to 1000 new entries,
refresh the spool, run the matching loop, persist the end position of the
last read entry when any entry was read, clean up the spool, and return the
consumed taps.  The result carries the new processor state, the directory
content after `cleanup`, and `to_archive`. -/
def HttpProcessor.process_new_access_log_entries (st : HttpProcessorState)
    (file : List LogLine) (dir : List DirEntry) :
    HttpProcessorState × List DirEntry × List (Str × Json) :=
  let read := AccessLogReader.read_new_entries file st.last_position 1000
  let new_entries := read.1
  let folder := TapsFolder.refresh HttpTapsFolder.on_file_loaded st.folder dir
  let looped := HttpProcessor.entryLoop new_entries folder
  let persisted := match new_entries.getLast? with
    | some e => e.end_position
    | none => st.persisted_position
  let cleaned := TapsFolder.cleanup looped.1 dir
  ({ last_position := read.2, persisted_position := persisted, folder := cleaned.1 },
    cleaned.2, looped.2)

/-! ## logs_processor/sessions.py : SessionsStorage

`SessionRequests.requests` is a list of `(timestamp, request_id)` pairs kept
sorted by `bisect.insort` under the lexicographic tuple order.
`get_in_session` / `get_out_session` run `http.cookies.SimpleCookie` over the
headers; their result (an optional cookie value) is what `add_request`
consumes, so the storage operations below take that result as an argument
and the cookie parser itself is not modelled. -/

/-- Mirror of `RequestInfo` (`logs_processor/sessions.py`). -/
structure RequestInfo where
  start_time : Nat
  session_in : Option Str
  session_out : Option Str
deriving DecidableEq, Repr

/-- Mirror of `Link` (`logs_processor/sessions.py`). -/
structure Link where
  from_request_id : Nat
  to_request_id : Nat
deriving DecidableEq, Repr

/-- Lexicographic strict order on `(timestamp, request_id)` pairs, as Python
compares the tuples held in `SessionRequests.requests`. -/
def pairLt (a b : Nat × Nat) : Bool :=
  a.1 < b.1 || (a.1 == b.1 && a.2 < b.2)

/-- Mirror of `bisect.insort` on the timeline: insert before the first
strictly greater element, i.e. after all equal ones. -/
def SessionRequests.insort (l : List (Nat × Nat)) (x : Nat × Nat) : List (Nat × Nat) :=
  match l with
  | [] => [x]
  | e :: t => if pairLt x e then x :: e :: t else e :: SessionRequests.insort t x

/-- Mirror of `SessionRequests.find_request_before` (`logs_processor/sessions.py`
lines 35-39): `bisect_left(self.requests, (timestamp, 0))` is the number of
entries lexicographically below `(timestamp, 0)`; when positive, return the
request id of the entry just before that index. -/
def SessionRequests.find_request_before (l : List (Nat × Nat)) (timestamp : Nat) :
    Option Nat :=
  let index := l.countP (fun e => pairLt e (timestamp, 0))
  if 0 < index then (l[index - 1]?).map Prod.snd else none

/-- Mirror of `SessionRequests.find_request_after` (`logs_processor/sessions.py`
lines 41-45): `bisect_right(self.requests, (timestamp, inf))` is the number
of entries whose timestamp component is at most `timestamp` (every request
id compares below `inf`); when this lands inside the list, return the
request id found there. -/
def SessionRequests.find_request_after (l : List (Nat × Nat)) (timestamp : Nat) :
    Option Nat :=
  let index := l.countP (fun e => decide (e.1 ≤ timestamp))
  (l[index]?).map Prod.snd

/-- State of a `SessionsStorage`: the per-`(port, request_id)` info dict and
the two timeline dicts (a missing timeline behaves exactly like an empty
one in both `add_request`, via `defaultdict`, and `get_links`, where
`find_request_before`/`after` on an empty timeline return `None`). -/
structure SessionsStorage where
  requests : Nat × Nat → Option RequestInfo
  request_sessions : Nat × Str → List (Nat × Nat)
  response_sessions : Nat × Str → List (Nat × Nat)

/-- The state built by `SessionsStorage.__init__`. -/
def SessionsStorage.init : SessionsStorage where
  requests := fun _ => none
  request_sessions := fun _ => []
  response_sessions := fun _ => []

/-- Python truthiness of an optional session string (`if in_session:`). -/
def strOptTruthy : Option Str → Bool
  | none => false
  | some s => !s.isEmpty

/-- Mirror of `SessionsStorage.add_request` (`logs_processor/sessions.py`
lines 119-136), taking the already-extracted `in_session` / `out_session`
cookie values: record the request info when either session is truthy, and
insert the request into the timeline of each truthy session. -/
def SessionsStorage.add_request (st : SessionsStorage) (port request_id start_time : Nat)
    (in_session out_session : Option Str) : SessionsStorage :=
  let st1 :=
    if strOptTruthy in_session || strOptTruthy out_session then
      { st with
        requests := fupd st.requests (port, request_id)
          (some ⟨start_time, in_session, out_session⟩) }
    else st
  let st2 :=
    match in_session with
    | some s =>
      if !s.isEmpty then
        { st1 with
          request_sessions := fupd st1.request_sessions (port, s)
            (SessionRequests.insort (st1.request_sessions (port, s)) (start_time, request_id)) }
      else st1
    | none => st1
  match out_session with
  | some s =>
    if !s.isEmpty then
      { st2 with
        response_sessions := fupd st2.response_sessions (port, s)
          (SessionRequests.insort (st2.response_sessions (port, s)) (start_time, request_id)) }
    else st2
  | none => st2

/-- Mirror of `SessionsStorage.get_links` (`logs_processor/sessions.py`
lines 138-161): no links without recorded info; an incoming link from the
latest strictly earlier request of the in-session timeline; an outgoing link
to the earliest strictly later request of the out-session timeline. -/
def SessionsStorage.get_links (st : SessionsStorage) (port request_id : Nat) : List Link :=
  match st.requests (port, request_id) with
  | none => []
  | some info =>
    let inLinks : List Link :=
      match info.session_in with
      | some s =>
        if !s.isEmpty then
          match SessionRequests.find_request_before (st.request_sessions (port, s))
              info.start_time with
          | some linked => [⟨linked, request_id⟩]
          | none => []
        else []
      | none => []
    let outLinks : List Link :=
      match info.session_out with
      | some s =>
        if !s.isEmpty then
          match SessionRequests.find_request_after (st.response_sessions (port, s))
              info.start_time with
          | some linked => [⟨request_id, linked⟩]
          | none => []
        else []
      | none => []
    inLinks ++ outLinks

/-- One observed call to `SessionsStorage.add_request`, with the cookie
extraction results it received. -/
structure AddRequestCall where
  port : Nat
  request_id : Nat
  start_time : Nat
  in_session : Option Str
  out_session : Option Str

/-- The storage state after a sequence of `add_request` calls starting from
the freshly constructed storage. -/
def SessionsStorage.run (calls : List AddRequestCall) : SessionsStorage :=
  calls.foldl
    (fun st c => st.add_request c.port c.request_id c.start_time c.in_session c.out_session)
    SessionsStorage.init

/-! ## logs_processor/flags.py : find_body_flags and the regex engine

`find_body_flags` walks `re.finditer(pattern, body)`.  The abstract syntax
below covers the regex constructs the flag patterns use; `parses` renders
the CPython backtracking engine: the candidate match lengths at a position
in engine preference order (alternation prefers the left branch, repetition
is greedy), so the engine result is the head of that list.  `finditer` then
scans left to right, resuming after each match and advancing one position
past an empty match. -/

/-- Regex abstract syntax: empty pattern, single character, concatenation,
alternation, Kleene star. -/
inductive Regex where
  | eps
  | chr (c : Char)
  | cat (r1 r2 : Regex)
  | alt (r1 r2 : Regex)
  | star (r : Regex)
deriving DecidableEq, Repr

/-- Greedy repetition loop of the backtracking engine: try a non-empty step
of the body followed by the rest of the loop, preferring longer first, and
offer the empty repetition last.  The star of a pattern never needs more
iterations than there are characters, so the caller passes the string length
plus one as fuel. -/
def starLoop (p : Str → List Nat) : Nat → Str → List Nat
  | 0, _ => [0]
  | f + 1, s =>
    ((p s).filter (fun n => n ≠ 0)).flatMap
      (fun n => (starLoop p f (s.drop n)).map (n + ·)) ++ [0]

/-- Candidate match lengths of a pattern against a prefix of `s`, in the
preference order of the CPython backtracking engine. -/
def Regex.parses : Regex → Str → List Nat
  | .eps, _ => [0]
  | .chr c, s =>
    match s with
    | [] => []
    | x :: _ => if x = c then [1] else []
  | .cat r1 r2, s =>
    (Regex.parses r1 s).flatMap (fun n1 => (Regex.parses r2 (s.drop n1)).map (n1 + ·))
  | .alt r1 r2, s => Regex.parses r1 s ++ Regex.parses r2 s
  | .star r, s => starLoop (Regex.parses r) (s.length + 1) s

/-- The match the backtracking engine reports at the current position: the
first candidate in preference order, if any. -/
def Regex.matchAt (r : Regex) (s : Str) : Option Nat := (r.parses s).head?

/-- The `re.finditer` scan loop: at position `i`, report a match of length
`n` as `(i, matched text)` and resume at `i + n` (at `i + 1` after an empty
match); otherwise retry at the next position.  Positions advance by at least
one per step, so `s.length + 1` initial fuel covers the whole scan. -/
def Regex.findIterLoop (r : Regex) : Nat → Nat → Str → List (Nat × Str)
  | 0, _, _ => []
  | fuel + 1, i, s =>
    if i ≤ s.length then
      match r.matchAt (s.drop i) with
      | some n =>
        (i, (s.drop i).take n) ::
          Regex.findIterLoop r fuel (i + (if n = 0 then 1 else n)) s
      | none => Regex.findIterLoop r fuel (i + 1) s
    else []

/-- All matches of `re.finditer(pattern, s)` as `(start position, matched
text)` pairs. -/
def Regex.findIter (r : Regex) (s : Str) : List (Nat × Str) :=
  Regex.findIterLoop r (s.length + 1) 0 s

/-- Mirror of `find_body_flags` (`logs_processor/flags.py` lines 4-8): one
`(match.start(), match.group(0))` pair per `re.finditer` match.  `body` is a
Python `str` (the UTF-8-lossy decoded request or response body), so
`match.start()` counts characters of that string. -/
def find_body_flags (body : Str) (pattern : Regex) : List (Nat × Str) :=
  pattern.findIter body

/-- Declarative matching relation of the regex syntax: the language each
pattern denotes. -/
inductive Regex.RMatch : Regex → Str → Prop where
  | eps : Regex.RMatch .eps []
  | chr (c : Char) : Regex.RMatch (.chr c) [c]
  | cat {r1 r2 : Regex} {s1 s2 : Str} :
      Regex.RMatch r1 s1 → Regex.RMatch r2 s2 → Regex.RMatch (.cat r1 r2) (s1 ++ s2)
  | altL {r1 r2 : Regex} {s : Str} : Regex.RMatch r1 s → Regex.RMatch (.alt r1 r2) s
  | altR {r1 r2 : Regex} {s : Str} : Regex.RMatch r2 s → Regex.RMatch (.alt r1 r2) s
  | starNil {r : Regex} : Regex.RMatch (.star r) []
  | starCons {r : Regex} {s1 s2 : Str} :
      Regex.RMatch r s1 → Regex.RMatch (.star r) s2 → Regex.RMatch (.star r) (s1 ++ s2)

/-- Byte offset of character position `k` within the UTF-8 encoding of `s`
(what the spec calls the offset into the buffer). -/
def utf8Offset (s : Str) (k : Nat) : Nat :=
  ((s.take k).map Char.utf8Size).sum

/-! ## Helper lemmas on function-backed maps -/

theorem fupd_self {α β : Type} [DecidableEq α] (f : α → β) (k : α) (v : β) :
    fupd f k v k = v := by
  simp [fupd]

theorem fupd_ne {α β : Type} [DecidableEq α] (f : α → β) (k x : α) (v : β)
    (h : x ≠ k) : fupd f k v x = f x := by
  simp [fupd, h]

theorem fupd_fupd {α β : Type} [DecidableEq α] (f : α → β) (k : α) (v w : β) :
    fupd (fupd f k v) k w = fupd f k w := by
  funext x
  by_cases h : x = k <;> simp [fupd, h]

/-! ## C1 : http_path_stats increment and the new-path alert -/

/-- C1: `HttpPathStatsTable.increment` reports `NEW` exactly when no row for
`(port, path)` exists yet (hence on the first call that touches the pair and,
the row existing from then on, `UPDATED` on every later call), and the HTTP
tap processor follows a `NEW` result with exactly one alert insertion whose
description is `New path: '<full_path>'` for the current request, while an
`UPDATED` result inserts no alert. -/
theorem http_path_stats_new_alert (db : HttpPathDbSlice) (port : Nat)
    (path full_path : Str) (request_id response_id now : Nat) (hport : port ≠ 0) :
    ((HttpPathStatsTable.increment db.http_path_stats port path 1).2 = RowStatus.NEW
        ↔ db.http_path_stats (port, path) = none)
    ∧ ((HttpTapProcessor.processTapPathStats db port path full_path request_id
          response_id now).http_path_stats (port, path)).isSome = true
    ∧ (db.http_path_stats (port, path) = none →
        (HttpTapProcessor.processTapPathStats db port path full_path request_id
          response_id now).alerts
          = db.alerts ++
            [(⟨port, now, newPathDescription full_path, request_id, response_id⟩ : AlertRow)])
    ∧ (db.http_path_stats (port, path) ≠ none →
        (HttpTapProcessor.processTapPathStats db port path full_path request_id
          response_id now).alerts = db.alerts) := by
  cases h : db.http_path_stats (port, path) with
  | none =>
    simp [HttpTapProcessor.processTapPathStats, HttpPathStatsTable.increment, h,
      hport, fupd_self]
  | some c =>
    simp [HttpTapProcessor.processTapPathStats, HttpPathStatsTable.increment, h,
      hport, fupd_self]

/-- Instance of `http_path_stats_new_alert` on a concrete empty table. -/
theorem http_path_stats_new_alert_witness :
    ((HttpPathStatsTable.increment
        (⟨fun _ => none, []⟩ : HttpPathDbSlice).http_path_stats 1 "/a".toList 1).2
          = RowStatus.NEW
        ↔ (⟨fun _ => none, []⟩ : HttpPathDbSlice).http_path_stats (1, "/a".toList) = none)
    ∧ ((HttpTapProcessor.processTapPathStats ⟨fun _ => none, []⟩ 1 "/a".toList
          "/a?x=1".toList 2 3 4).http_path_stats (1, "/a".toList)).isSome = true
    ∧ ((⟨fun _ => none, []⟩ : HttpPathDbSlice).http_path_stats (1, "/a".toList) = none →
        (HttpTapProcessor.processTapPathStats ⟨fun _ => none, []⟩ 1 "/a".toList
          "/a?x=1".toList 2 3 4).alerts
          = (⟨fun _ => none, []⟩ : HttpPathDbSlice).alerts ++
            [(⟨1, 4, newPathDescription "/a?x=1".toList, 2, 3⟩ : AlertRow)])
    ∧ ((⟨fun _ => none, []⟩ : HttpPathDbSlice).http_path_stats (1, "/a".toList) ≠ none →
        (HttpTapProcessor.processTapPathStats ⟨fun _ => none, []⟩ 1 "/a".toList
          "/a?x=1".toList 2 3 4).alerts
          = (⟨fun _ => none, []⟩ : HttpPathDbSlice).alerts) :=
  http_path_stats_new_alert ⟨fun _ => none, []⟩ 1 "/a".toList "/a?x=1".toList 2 3 4
    (by decide)

/-! ## C4 : execute_sql vetting -/

/-- C4 counterexample: `SELECT 1; DELETE FROM t` is not a single `SELECT`
statement (after normalisation it still contains the statement separator
`;`), yet `execute_sql` raises no `ValueError` for it: the vetting accepts
it and even appends the default limit, so the claim that every query that is
not a single `SELECT` statement raises `ValueError` is false. -/
theorem execute_sql_multi_statement_cex :
    specSingleSelectStatement "SELECT 1; DELETE FROM t".toList = false
    ∧ ProxyStatsDB.executeSqlQuery "SELECT 1; DELETE FROM t".toList 1000
        = Except.ok "SELECT 1; DELETE FROM t LIMIT 1000".toList := by
  exact ⟨by decide, rfl⟩

/-- C4 (amended): `execute_sql` raises `ValueError` exactly when the
normalised query does not start with `SELECT` case-insensitively — in
particular every `DELETE ...` query is rejected and never executed — and an
accepted query is executed with ` LIMIT default_limit` appended exactly when
`default_limit` is non-zero and the upper-cased query nowhere contains the
substring `LIMIT`; a multi-statement query whose first statement is a
`SELECT` is not rejected by this check. -/
theorem execute_sql_select_only (query : Str) (default_limit : Nat) :
    ((∃ e, ProxyStatsDB.executeSqlQuery query default_limit = Except.error e)
        ↔ List.isPrefixOf "SELECT".toList (pyUpper (stripQuery query)) = false)
    ∧ (List.isPrefixOf "DELETE".toList (pyUpper (stripQuery query)) = true →
        ProxyStatsDB.executeSqlQuery query default_limit
          = Except.error "Only SELECT queries are allowed".toList)
    ∧ (List.isPrefixOf "SELECT".toList (pyUpper (stripQuery query)) = true →
        containsSub (pyUpper (stripQuery query)) "LIMIT".toList = false →
        default_limit ≠ 0 →
        ProxyStatsDB.executeSqlQuery query default_limit
          = Except.ok (stripQuery query ++ " LIMIT ".toList ++ natStr default_limit))
    ∧ (List.isPrefixOf "SELECT".toList (pyUpper (stripQuery query)) = true →
        containsSub (pyUpper (stripQuery query)) "LIMIT".toList = true →
        ProxyStatsDB.executeSqlQuery query default_limit = Except.ok (stripQuery query)) := by
  refine ⟨?_, ?_, ?_, ?_⟩
  · cases hP : List.isPrefixOf "SELECT".toList (pyUpper (stripQuery query)) with
    | false =>
      simp only [ProxyStatsDB.executeSqlQuery, hP]
      simp
    | true =>
      simp only [ProxyStatsDB.executeSqlQuery, hP]
      constructor
      · rintro ⟨e, he⟩
        simp only [Bool.not_true] at he
        rw [if_neg (by simp)] at he
        split at he <;> exact Except.noConfusion he
      · intro hf
        simp at hf
  · intro hd
    have hs : List.isPrefixOf "SELECT".toList (pyUpper (stripQuery query)) = false := by
      by_contra hc
      simp only [Bool.not_eq_false] at hc
      have h1 : "SELECT".toList <+: pyUpper (stripQuery query) :=
        List.isPrefixOf_iff_prefix.mp hc
      have h2 : "DELETE".toList <+: pyUpper (stripQuery query) :=
        List.isPrefixOf_iff_prefix.mp hd
      rcases List.prefix_or_prefix_of_prefix h1 h2 with h3 | h3
      · exact absurd (List.IsPrefix.eq_of_length h3 (by decide)) (by decide)
      · exact absurd (List.IsPrefix.eq_of_length h3 (by decide)) (by decide)
    simp only [ProxyStatsDB.executeSqlQuery, hs]
    simp
  · intro hs hl hd
    simp only [ProxyStatsDB.executeSqlQuery, hs, hl]
    simp [hd]
  · intro hs hl
    simp only [ProxyStatsDB.executeSqlQuery, hs, hl]
    simp

/-- Instance of `execute_sql_select_only`: a `DELETE` query is rejected. -/
theorem execute_sql_select_only_witness :
    ProxyStatsDB.executeSqlQuery "DELETE FROM flag".toList 1000
      = Except.error "Only SELECT queries are allowed".toList :=
  (execute_sql_select_only "DELETE FROM flag".toList 1000).2.1 (by decide)

/-! ## C7 : TCP byte buckets -/

/-- C7: for a processed TCP tap, the bucket written to the TCP connection
stats tables satisfies `read_min = floor(total_read/precision)*precision`,
`read_max = read_min + precision`, hence `read_min ≤ total_read < read_max`
(and symmetrically for writes), where the totals are the summed decoded
payload lengths of the read and write events and the precision is the
configured `tcp_connection_stats_precision` (100 without a service). -/
theorem tcp_connection_buckets (events : List TcpEvent) (service : Option ServiceConfig)
    (hp : 0 < TcpTapProcessor.resolvePrecision service) :
    (TcpTapProcessor.processTapBuckets events service).read_min
        = (TcpTapProcessor.accumulateTotals events).1
            / TcpTapProcessor.resolvePrecision service
            * TcpTapProcessor.resolvePrecision service
    ∧ (TcpTapProcessor.processTapBuckets events service).read_max
        = (TcpTapProcessor.processTapBuckets events service).read_min
            + TcpTapProcessor.resolvePrecision service
    ∧ (TcpTapProcessor.processTapBuckets events service).read_min
        ≤ (TcpTapProcessor.accumulateTotals events).1
    ∧ (TcpTapProcessor.accumulateTotals events).1
        < (TcpTapProcessor.processTapBuckets events service).read_max
    ∧ (TcpTapProcessor.processTapBuckets events service).write_min
        = (TcpTapProcessor.accumulateTotals events).2
            / TcpTapProcessor.resolvePrecision service
            * TcpTapProcessor.resolvePrecision service
    ∧ (TcpTapProcessor.processTapBuckets events service).write_max
        = (TcpTapProcessor.processTapBuckets events service).write_min
            + TcpTapProcessor.resolvePrecision service
    ∧ (TcpTapProcessor.processTapBuckets events service).write_min
        ≤ (TcpTapProcessor.accumulateTotals events).2
    ∧ (TcpTapProcessor.accumulateTotals events).2
        < (TcpTapProcessor.processTapBuckets events service).write_max
    ∧ (TcpTapProcessor.accumulateTotals events).1
        = (events.map (fun e => match e with | .read p => p.length | _ => 0)).sum
    ∧ (TcpTapProcessor.accumulateTotals events).2
        = (events.map (fun e => match e with | .write p => p.length | _ => 0)).sum
    ∧ TcpTapProcessor.resolvePrecision none = 100 := by
  have hacc : ∀ (l : List TcpEvent) (a b : Nat),
      l.foldl
        (fun acc e =>
          match e with
          | .read p => (acc.1 + p.length, acc.2)
          | .write p => (acc.1, acc.2 + p.length)
          | _ => acc) (a, b)
        = (a + (l.map (fun e => match e with | .read p => p.length | _ => 0)).sum,
           b + (l.map (fun e => match e with | .write p => p.length | _ => 0)).sum) := by
    intro l
    induction l with
    | nil => intro a b; simp
    | cons e t ih =>
      intro a b
      cases e <;> simp [ih] <;> omega
  have htr : (TcpTapProcessor.accumulateTotals events).1
      = (events.map (fun e => match e with | .read p => p.length | _ => 0)).sum := by
    simp [TcpTapProcessor.accumulateTotals, hacc]
  have htw : (TcpTapProcessor.accumulateTotals events).2
      = (events.map (fun e => match e with | .write p => p.length | _ => 0)).sum := by
    simp [TcpTapProcessor.accumulateTotals, hacc]
  have hb : ∀ t : Nat, t / TcpTapProcessor.resolvePrecision service
        * TcpTapProcessor.resolvePrecision service ≤ t := fun t =>
    Nat.div_mul_le_self t _
  have hb2 : ∀ t : Nat, t < t / TcpTapProcessor.resolvePrecision service
        * TcpTapProcessor.resolvePrecision service
        + TcpTapProcessor.resolvePrecision service := by
    intro t
    have h1 := Nat.div_add_mod t (TcpTapProcessor.resolvePrecision service)
    have h2 := Nat.mod_lt t hp
    have h3 : t / TcpTapProcessor.resolvePrecision service
          * TcpTapProcessor.resolvePrecision service
        = TcpTapProcessor.resolvePrecision service
          * (t / TcpTapProcessor.resolvePrecision service) := Nat.mul_comm _ _
    omega
  refine ⟨rfl, rfl, hb _, hb2 _, rfl, rfl, hb _, hb2 _, htr, htw, rfl⟩

/-- Instance of `tcp_connection_buckets` on a concrete event list without a
configured service. -/
theorem tcp_connection_buckets_witness :
    (TcpTapProcessor.processTapBuckets
        [TcpEvent.read [99, 116, 102], TcpEvent.write [111, 107], TcpEvent.closed]
        none).read_min
      = (TcpTapProcessor.accumulateTotals
          [TcpEvent.read [99, 116, 102], TcpEvent.write [111, 107], TcpEvent.closed]).1
          / TcpTapProcessor.resolvePrecision none * TcpTapProcessor.resolvePrecision none
    ∧ (TcpTapProcessor.accumulateTotals
        [TcpEvent.read [99, 116, 102], TcpEvent.write [111, 107], TcpEvent.closed]).1
      < (TcpTapProcessor.processTapBuckets
          [TcpEvent.read [99, 116, 102], TcpEvent.write [111, 107], TcpEvent.closed]
          none).read_max :=
  ⟨(tcp_connection_buckets _ none (by decide)).1,
   (tcp_connection_buckets _ none (by decide)).2.2.2.1⟩

/-! ## C3 : k-fold increments of counter tables -/

theorem serviceStats_iter_closed (tbl : ServiceStatsState) (inc : ServiceStatsIncrement)
    (h : tbl inc.port = none) :
    ∀ k, 1 ≤ k → ServiceStatsTable.incrementIter tbl inc k
      = fupd tbl inc.port
          (some (ServiceStatsTable.applyDelta ServiceStatsTable.insertRow
            (ServiceStatsIncrement.scale k inc))) := by
  intro k
  induction k with
  | zero => intro hk; omega
  | succ k ih =>
    intro _
    by_cases hk : 1 ≤ k
    · have hstep := ih hk
      have hrow : ServiceStatsTable.applyDelta
          (ServiceStatsTable.applyDelta ServiceStatsTable.insertRow
            (ServiceStatsIncrement.scale k inc)) inc
          = ServiceStatsTable.applyDelta ServiceStatsTable.insertRow
              (ServiceStatsIncrement.scale (k + 1) inc) := by
        simp only [ServiceStatsTable.applyDelta, ServiceStatsTable.insertRow,
          ServiceStatsIncrement.scale, ServiceStatsCounters.mk.injEq]
        repeat' apply And.intro
        all_goals (push_cast; ring)
      simp only [ServiceStatsTable.incrementIter, hstep, ServiceStatsTable.increment,
        fupd_self, fupd_fupd, hrow]
    · have hk0 : k = 0 := by omega
      subst hk0
      have hrow : ServiceStatsTable.applyDelta ServiceStatsTable.insertRow inc
          = ServiceStatsTable.applyDelta ServiceStatsTable.insertRow
              (ServiceStatsIncrement.scale (0 + 1) inc) := by
        simp only [ServiceStatsTable.applyDelta, ServiceStatsTable.insertRow,
          ServiceStatsIncrement.scale, ServiceStatsCounters.mk.injEq]
        repeat' apply And.intro
        all_goals (push_cast; ring)
      simp only [ServiceStatsTable.incrementIter, ServiceStatsTable.increment, h, hrow]

theorem pathTimeStats_iter_closed (tbl : HttpPathTimeStatsState) (port : Nat)
    (method path : Str) (time : Nat) (x : Int)
    (h : tbl (port, method, path, time) = none) :
    ∀ k, 1 ≤ k → HttpPathTimeStatsTable.incrementIter tbl port method path time x k
      = fupd tbl (port, method, path, time) (some ((k : Int) * x)) := by
  intro k
  induction k with
  | zero => intro hk; omega
  | succ k ih =>
    intro _
    by_cases hk : 1 ≤ k
    · have hstep := ih hk
      simp only [HttpPathTimeStatsTable.incrementIter, hstep]
      simp only [HttpPathTimeStatsTable.increment, fupd_self, fupd_fupd]
      push_cast
      ring
    · have hk0 : k = 0 := by omega
      subst hk0
      simp only [HttpPathTimeStatsTable.incrementIter, HttpPathTimeStatsTable.increment, h]
      push_cast
      ring

/-- C3: for the counter tables, `k` applications of `increment` with a fixed
delta starting from a state without the key equal one `increment` with the
delta scaled by `k` (shown for `service_stats` and for
`http_path_time_stats`); in particular, on the first touch of a port,
`ServiceStatsTable.increment` inserts the zero-row and then applies the
delta exactly once. -/
theorem counter_increment_k_fold (k : Nat) (tblS : ServiceStatsState)
    (incS : ServiceStatsIncrement) (tblT : HttpPathTimeStatsState) (port : Nat)
    (method path : Str) (time : Nat) (x : Int) (hk : 1 ≤ k)
    (hS : tblS incS.port = none) (hT : tblT (port, method, path, time) = none) :
    ServiceStatsTable.incrementIter tblS incS k
        = ServiceStatsTable.increment tblS (ServiceStatsIncrement.scale k incS)
    ∧ HttpPathTimeStatsTable.incrementIter tblT port method path time x k
        = (HttpPathTimeStatsTable.increment tblT port method path time ((k : Int) * x)).1
    ∧ ServiceStatsTable.increment tblS incS incS.port
        = some (ServiceStatsTable.applyDelta ServiceStatsTable.insertRow incS) := by
  refine ⟨?_, ?_, ?_⟩
  · rw [serviceStats_iter_closed tblS incS hS k hk]
    have hp : (ServiceStatsIncrement.scale k incS).port = incS.port := rfl
    simp only [ServiceStatsTable.increment, hp, hS]
  · rw [pathTimeStats_iter_closed tblT port method path time x hT k hk]
    simp only [HttpPathTimeStatsTable.increment, hT]
  · simp only [ServiceStatsTable.increment, hS, fupd_self]

/-- Instance of `counter_increment_k_fold`: two unit increments on a fresh
port equal one increment by two. -/
theorem counter_increment_k_fold_witness :
    ServiceStatsTable.incrementIter (fun _ => none)
        (⟨5, 1, 0, 0, 0, 0, 0, 0, 0, 0, 0⟩ : ServiceStatsIncrement) 2
      = ServiceStatsTable.increment (fun _ => none)
          (ServiceStatsIncrement.scale 2 ⟨5, 1, 0, 0, 0, 0, 0, 0, 0, 0, 0⟩) :=
  (counter_increment_k_fold 2 (fun _ => none) ⟨5, 1, 0, 0, 0, 0, 0, 0, 0, 0, 0⟩
    (fun _ => none) 5 "GET".toList "/".toList 0 1 (by decide) rfl rfl).1

/-! ## Lemmas on the tap spool -/

theorem try_load_file_other {ι : Type} (hook : ι → Str → Json → ι) (st : TapsFolder ι)
    (f : Str) (c : Option Json) (n : Str) (h : n ≠ f) :
    (TapsFolder.try_load_file hook st f c).cache n = st.cache n
    ∧ (TapsFolder.try_load_file hook st f c).to_remove n = st.to_remove n
    ∧ (TapsFolder.try_load_file hook st f c).failed_to_load n = st.failed_to_load n := by
  cases c with
  | some d => exact ⟨fupd_ne _ _ _ _ h, rfl, rfl⟩
  | none =>
    simp only [TapsFolder.try_load_file]
    split
    · exact ⟨rfl, fupd_ne _ _ _ _ h, fupd_ne _ _ _ _ h⟩
    · exact ⟨rfl, rfl, fupd_ne _ _ _ _ h⟩

theorem refreshStep_other {ι : Type} (hook : ι → Str → Json → ι) (st : TapsFolder ι)
    (e : DirEntry) (n : Str) (h : n ≠ e.name) :
    (TapsFolder.refreshStep hook st e).cache n = st.cache n
    ∧ (TapsFolder.refreshStep hook st e).to_remove n = st.to_remove n
    ∧ (TapsFolder.refreshStep hook st e).failed_to_load n = st.failed_to_load n := by
  unfold TapsFolder.refreshStep
  split
  · exact ⟨rfl, rfl, rfl⟩
  · split
    · split
      · exact try_load_file_other hook st e.name e.content n h
      · exact ⟨rfl, fupd_ne _ _ _ _ h, rfl⟩
    · exact ⟨rfl, rfl, rfl⟩

theorem refreshStep_skip {ι : Type} (hook : ι → Str → Json → ι) (st : TapsFolder ι)
    (e : DirEntry)
    (h : ((st.cache e.name).isSome || st.to_remove e.name) = true ∨ e.isFile = false) :
    TapsFolder.refreshStep hook st e = st := by
  unfold TapsFolder.refreshStep
  rcases h with h | h
  · rw [if_pos h]
  · by_cases hskip : ((st.cache e.name).isSome || st.to_remove e.name) = true
    · rw [if_pos hskip]
    · rw [if_neg hskip, if_neg (by simp [h])]

theorem refreshStep_cache_stable {ι : Type} (hook : ι → Str → Json → ι)
    (st : TapsFolder ι) (e : DirEntry) (n : Str) (h : (st.cache n).isSome = true) :
    (TapsFolder.refreshStep hook st e).cache n = st.cache n := by
  by_cases hn : n = e.name
  · subst hn
    rw [refreshStep_skip hook st e (Or.inl (by simp [h]))]
  · exact (refreshStep_other hook st e n hn).1

theorem refreshStep_to_remove_mono {ι : Type} (hook : ι → Str → Json → ι)
    (st : TapsFolder ι) (e : DirEntry) (n : Str) (h : st.to_remove n = true) :
    (TapsFolder.refreshStep hook st e).to_remove n = true := by
  by_cases hn : n = e.name
  · subst hn
    rw [refreshStep_skip hook st e (Or.inl (by simp [h]))]
    exact h
  · rw [(refreshStep_other hook st e n hn).2.1]
    exact h

theorem refresh_cache_stable {ι : Type} (hook : ι → Str → Json → ι) (dir : List DirEntry) :
    ∀ (st : TapsFolder ι) (n : Str), (st.cache n).isSome = true →
      (TapsFolder.refresh hook st dir).cache n = st.cache n := by
  induction dir with
  | nil => intro st n _; rfl
  | cons e rest ih =>
    intro st n h
    have hstep := refreshStep_cache_stable hook st e n h
    have h2 : ((TapsFolder.refreshStep hook st e).cache n).isSome = true := by
      rw [hstep]; exact h
    show (TapsFolder.refresh hook (TapsFolder.refreshStep hook st e) rest).cache n
        = st.cache n
    rw [ih _ n h2, hstep]

theorem refresh_to_remove_mono {ι : Type} (hook : ι → Str → Json → ι) (dir : List DirEntry) :
    ∀ (st : TapsFolder ι) (n : Str), st.to_remove n = true →
      (TapsFolder.refresh hook st dir).to_remove n = true := by
  induction dir with
  | nil => intro st n h; exact h
  | cons e rest ih =>
    intro st n h
    exact ih _ n (refreshStep_to_remove_mono hook st e n h)

theorem refresh_other {ι : Type} (hook : ι → Str → Json → ι) (dir : List DirEntry) :
    ∀ (st : TapsFolder ι) (n : Str), (∀ e ∈ dir, e.name ≠ n) →
      (TapsFolder.refresh hook st dir).cache n = st.cache n
      ∧ (TapsFolder.refresh hook st dir).to_remove n = st.to_remove n
      ∧ (TapsFolder.refresh hook st dir).failed_to_load n = st.failed_to_load n := by
  induction dir with
  | nil => intro st n _; exact ⟨rfl, rfl, rfl⟩
  | cons e rest ih =>
    intro st n hn
    have hne : n ≠ e.name := fun hc => hn e (List.mem_cons_self e rest) hc.symm
    have hstep := refreshStep_other hook st e n hne
    have hrest := ih (TapsFolder.refreshStep hook st e) n
      (fun x hx => hn x (List.mem_cons_of_mem e hx))
    exact ⟨hrest.1.trans hstep.1, hrest.2.1.trans hstep.2.1, hrest.2.2.trans hstep.2.2⟩

theorem refresh_of_covered {ι : Type} (hook : ι → Str → Json → ι) (dir : List DirEntry) :
    ∀ (st : TapsFolder ι),
      (∀ e ∈ dir, ((st.cache e.name).isSome || st.to_remove e.name) = true
          ∨ e.isFile = false) →
      TapsFolder.refresh hook st dir = st := by
  induction dir with
  | nil => intro st _; rfl
  | cons e rest ih =>
    intro st hcov
    have hstep : TapsFolder.refreshStep hook st e = st :=
      refreshStep_skip hook st e (hcov e (List.mem_cons_self e rest))
    show TapsFolder.refresh hook (TapsFolder.refreshStep hook st e) rest = st
    rw [hstep]
    exact ih st (fun x hx => hcov x (List.mem_cons_of_mem e hx))

theorem refresh_covers {ι : Type} (hook : ι → Str → Json → ι) (dir : List DirEntry) :
    ∀ (st : TapsFolder ι),
      (∀ e ∈ dir, e.isFile = true → List.isSuffixOf ".json".toList e.name = true →
        e.content ≠ none) →
      ∀ e ∈ dir, e.isFile = true →
        ((TapsFolder.refresh hook st dir).cache e.name).isSome = true
        ∨ (TapsFolder.refresh hook st dir).to_remove e.name = true := by
  induction dir with
  | nil => intro st _ e he; exact absurd he (List.not_mem_nil e)
  | cons hd rest ih =>
    intro st hparse e he hf
    rcases List.mem_cons.mp he with rfl | he2
    · show ((TapsFolder.refresh hook (TapsFolder.refreshStep hook st e) rest).cache
          e.name).isSome = true
        ∨ (TapsFolder.refresh hook (TapsFolder.refreshStep hook st e) rest).to_remove
          e.name = true
      by_cases hskip : ((st.cache e.name).isSome || st.to_remove e.name) = true
      · have hstep : TapsFolder.refreshStep hook st e = st :=
          refreshStep_skip hook st e (Or.inl hskip)
        rw [hstep]
        rcases (Bool.or_eq_true _ _).mp hskip with h | h
        · exact Or.inl (by rw [refresh_cache_stable hook rest st e.name h]; exact h)
        · exact Or.inr (refresh_to_remove_mono hook rest st e.name h)
      · by_cases hjson : List.isSuffixOf ".json".toList e.name = true
        · obtain ⟨d, hd⟩ : ∃ d, e.content = some d := by
            cases hc : e.content with
            | none => exact absurd hc (hparse e (List.mem_cons_self e rest) hf hjson)
            | some d => exact ⟨d, rfl⟩
          have hstep : (TapsFolder.refreshStep hook st e).cache e.name = some d := by
            unfold TapsFolder.refreshStep
            rw [if_neg hskip, if_pos hf, if_pos hjson, hd]
            exact fupd_self _ _ _
          have hsome : ((TapsFolder.refreshStep hook st e).cache e.name).isSome = true := by
            rw [hstep]; rfl
          exact Or.inl (by
            rw [refresh_cache_stable hook rest _ e.name hsome]; exact hsome)
        · have hstep : (TapsFolder.refreshStep hook st e).to_remove e.name = true := by
            unfold TapsFolder.refreshStep
            rw [if_neg hskip, if_pos hf, if_neg hjson]
            exact fupd_self _ _ _
          exact Or.inr (refresh_to_remove_mono hook rest _ e.name hstep)
    · exact ih (TapsFolder.refreshStep hook st hd)
        (fun x hx => hparse x (List.mem_cons_of_mem hd hx)) e he2 hf

/-! ## C9 : idempotence of refresh -/

/-- C9 counterexample: over a fixed directory holding a single `.json` file
whose content fails to parse, the second `refresh` is not a no-op: it
retries the file and increments its retry counter from 1 to 2, so `refresh`
is not idempotent as claimed. -/
theorem refresh_not_idempotent_cex :
    (TapsFolder.refresh (fun i _ _ => i) (TapsFolder.init ())
        [⟨"a.json".toList, true, none⟩]).failed_to_load "a.json".toList = some 1
    ∧ (TapsFolder.refresh (fun i _ _ => i)
        (TapsFolder.refresh (fun i _ _ => i) (TapsFolder.init ())
          [⟨"a.json".toList, true, none⟩])
        [⟨"a.json".toList, true, none⟩]).failed_to_load "a.json".toList = some 2
    ∧ TapsFolder.refresh (fun i _ _ => i)
        (TapsFolder.refresh (fun i _ _ => i) (TapsFolder.init ())
          [⟨"a.json".toList, true, none⟩])
        [⟨"a.json".toList, true, none⟩]
      ≠ TapsFolder.refresh (fun i _ _ => i) (TapsFolder.init ())
          [⟨"a.json".toList, true, none⟩] := by
  refine ⟨rfl, rfl, ?_⟩
  intro h
  have h2 : (some 2 : Option Nat) = some 1 :=
    congrArg (fun st => st.failed_to_load "a.json".toList) h
  exact absurd h2 (by decide)

/-- C9 (amended): `refresh` is idempotent over directories in which every
`.json` file entry has parseable content; in general, a second `refresh`
re-attempts every `.json` file that failed to parse, incrementing its retry
counter (and possibly scheduling its removal), as the counterexample shows. -/
theorem refresh_idempotent_on_parsed {ι : Type} (hook : ι → Str → Json → ι)
    (st : TapsFolder ι) (dir : List DirEntry)
    (hparse : ∀ e ∈ dir, e.isFile = true →
      List.isSuffixOf ".json".toList e.name = true → e.content ≠ none) :
    TapsFolder.refresh hook (TapsFolder.refresh hook st dir) dir
      = TapsFolder.refresh hook st dir := by
  apply refresh_of_covered
  intro e he
  by_cases hf : e.isFile = true
  · rcases refresh_covers hook dir st hparse e he hf with h | h
    · exact Or.inl (by simp [h])
    · exact Or.inl (by simp [h])
  · exact Or.inr (by simpa using hf)

/-- Instance of `refresh_idempotent_on_parsed` on a directory with one
parseable tap file. -/
theorem refresh_idempotent_on_parsed_witness :
    TapsFolder.refresh (fun i _ _ => i)
        (TapsFolder.refresh (fun i _ _ => i) (TapsFolder.init ())
          [⟨"b.json".toList, true, some (Json.obj [])⟩])
        [⟨"b.json".toList, true, some (Json.obj [])⟩]
      = TapsFolder.refresh (fun i _ _ => i) (TapsFolder.init ())
          [⟨"b.json".toList, true, some (Json.obj [])⟩] :=
  refresh_idempotent_on_parsed (fun i _ _ => i) (TapsFolder.init ())
    [⟨"b.json".toList, true, some (Json.obj [])⟩]
    (by
      intro e he _ _
      rw [List.mem_singleton] at he
      subst he
      intro hcontra
      exact Option.noConfusion hcontra)

/-! ## C10 : pop_filename on falsy data -/

theorem refresh_loads {ι : Type} (hook : ι → Str → Json → ι) (dir : List DirEntry) :
    ∀ (st : TapsFolder ι) (f : Str) (d : Json),
      st.cache f = none → st.to_remove f = false →
      (⟨f, true, some d⟩ : DirEntry) ∈ dir →
      (∀ e ∈ dir, e.name = f → e = ⟨f, true, some d⟩) →
      List.isSuffixOf ".json".toList f = true →
      (TapsFolder.refresh hook st dir).cache f = some d := by
  induction dir with
  | nil => intro st f d _ _ hmem _ _; exact absurd hmem (List.not_mem_nil _)
  | cons e rest ih =>
    intro st f d hc hr hmem huni hjson
    by_cases hn : e.name = f
    · have he : e = ⟨f, true, some d⟩ := huni e (List.mem_cons_self e rest) hn
      subst he
      have hstep : (TapsFolder.refreshStep hook st ⟨f, true, some d⟩).cache f = some d := by
        unfold TapsFolder.refreshStep
        rw [if_neg (by simp [hc, hr]), if_pos rfl, if_pos hjson]
        exact fupd_self _ _ _
      have hsome : ((TapsFolder.refreshStep hook st ⟨f, true, some d⟩).cache f).isSome
          = true := by
        rw [hstep]; rfl
      show (TapsFolder.refresh hook
        (TapsFolder.refreshStep hook st ⟨f, true, some d⟩) rest).cache f = some d
      rw [refresh_cache_stable hook rest _ f hsome, hstep]
    · have hother := refreshStep_other hook st e f (fun hfe => hn hfe.symm)
      have hmem2 : (⟨f, true, some d⟩ : DirEntry) ∈ rest := by
        rcases List.mem_cons.mp hmem with h | h
        · exact absurd (congrArg DirEntry.name h).symm hn
        · exact h
      exact ih (TapsFolder.refreshStep hook st e) f d
        (by rw [hother.1]; exact hc)
        (by rw [hother.2.1]; exact hr)
        hmem2
        (fun x hx hxn => huni x (List.mem_cons_of_mem e hx) hxn)
        hjson

/-- C10: popping a cached tap file whose parsed JSON is the empty object
removes the cache entry and returns the empty object, but does not add the
file to the removal set; the on-disk file therefore survives `cleanup` and
is loaded again by the next `refresh`. -/
theorem pop_filename_falsy_survives {ι : Type} (hook : ι → Str → Json → ι)
    (st : TapsFolder ι) (f : Str) (dir : List DirEntry)
    (hc : st.cache f = some (Json.obj []))
    (hr : st.to_remove f = false)
    (hmem : (⟨f, true, some (Json.obj [])⟩ : DirEntry) ∈ dir)
    (huni : ∀ e ∈ dir, e.name = f → e = ⟨f, true, some (Json.obj [])⟩)
    (hjson : List.isSuffixOf ".json".toList f = true) :
    (TapsFolder.pop_filename st f).2 = some (Json.obj [])
    ∧ (TapsFolder.pop_filename st f).1.cache f = none
    ∧ (TapsFolder.pop_filename st f).1.to_remove f = false
    ∧ (⟨f, true, some (Json.obj [])⟩ : DirEntry)
        ∈ (TapsFolder.cleanup (TapsFolder.pop_filename st f).1 dir).2
    ∧ (TapsFolder.refresh hook
        (TapsFolder.cleanup (TapsFolder.pop_filename st f).1 dir).1
        (TapsFolder.cleanup (TapsFolder.pop_filename st f).1 dir).2).cache f
      = some (Json.obj []) := by
  have hpop : TapsFolder.pop_filename st f
      = ({ st with cache := fupd st.cache f none }, some (Json.obj [])) := by
    simp only [TapsFolder.pop_filename, hc]
    rw [if_neg (by decide)]
  rw [hpop]
  have hto : ({ st with cache := fupd st.cache f none } : TapsFolder ι).to_remove = st.to_remove := rfl
  refine ⟨rfl, fupd_self _ _ _, hr, ?_, ?_⟩
  · apply List.mem_filter.mpr
    refine ⟨hmem, ?_⟩
    simp [hr]
  · apply refresh_loads hook _ _ f (Json.obj [])
    · simp only [TapsFolder.cleanup, hr]
      simp [fupd_self]
    · simp only [TapsFolder.cleanup]
    · apply List.mem_filter.mpr
      refine ⟨hmem, ?_⟩
      simp [hr]
    · intro e he hen
      exact huni e (List.mem_filter.mp he).1 hen
    · exact hjson

/-! ## C8 : taps that repeatedly fail to parse -/

theorem on_file_loaded_cases (idx : Str → Option Str) (fn : Str) (data : Json)
    (rid : Str) :
    HttpTapsFolder.on_file_loaded idx fn data rid = idx rid
    ∨ HttpTapsFolder.on_file_loaded idx fn data rid = some fn := by
  unfold HttpTapsFolder.on_file_loaded
  cases hext : HttpTapsFolder.extract_request_id_from_tap data with
  | none => exact Or.inl rfl
  | some v =>
    cases v with
    | str s =>
      by_cases hs : s.isEmpty = true
      · exact Or.inl (by simp [hs])
      · have hs2 : s.isEmpty = false := by simpa using hs
        by_cases hrs : rid = s
        · exact Or.inr (by simp [hs2, fupd, hrs])
        · exact Or.inl (by simp [hs2, fupd, hrs])
    | null => exact Or.inl rfl
    | bool b => exact Or.inl rfl
    | num n => exact Or.inl rfl
    | arr l => exact Or.inl rfl
    | obj l => exact Or.inl rfl

theorem try_load_file_index_of_none {ι : Type} (hook : ι → Str → Json → ι)
    (st : TapsFolder ι) (fn : Str) :
    (TapsFolder.try_load_file hook st fn none).index = st.index := by
  simp only [TapsFolder.try_load_file]
  split <;> rfl

theorem refreshStep_index_ne (st : TapsFolder (Str → Option Str)) (e : DirEntry)
    (f : Str) (hcontent : e.name = f → e.content = none) (rid : Str)
    (h : st.index rid ≠ some f) :
    (TapsFolder.refreshStep HttpTapsFolder.on_file_loaded st e).index rid ≠ some f := by
  unfold TapsFolder.refreshStep
  split
  · exact h
  · split
    · split
      · cases hcont : e.content with
        | none =>
          rw [hcont] at *
          rw [try_load_file_index_of_none HttpTapsFolder.on_file_loaded st e.name]
          exact h
        | some d =>
          have hne : e.name ≠ f := fun hc2 => by
            rw [hcontent hc2] at hcont
            exact Option.noConfusion hcont
          simp only [TapsFolder.try_load_file, hcont]
          rcases on_file_loaded_cases st.index e.name d rid with hcase | hcase
          · rw [hcase]; exact h
          · rw [hcase]
            intro hc2
            exact hne (Option.some.injEq _ _ ▸ hc2 ▸ rfl)
      · exact h
    · exact h

theorem refresh_index_ne (dir : List DirEntry) :
    ∀ (st : TapsFolder (Str → Option Str)) (f : Str),
      (∀ e ∈ dir, e.name = f → e.content = none) →
      ∀ rid, st.index rid ≠ some f →
      (TapsFolder.refresh HttpTapsFolder.on_file_loaded st dir).index rid ≠ some f := by
  induction dir with
  | nil => intro st f _ rid h; exact h
  | cons e rest ih =>
    intro st f hcontent rid h
    exact ih _ f (fun x hx => hcontent x (List.mem_cons_of_mem e hx)) rid
      (refreshStep_index_ne st e f (hcontent e (List.mem_cons_self e rest)) rid h)

theorem refresh_failing_file (dir : List DirEntry) :
    ∀ (st : TapsFolder (Str → Option Str)) (f : Str) (base : Nat),
      List.isSuffixOf ".json".toList f = true →
      (⟨f, true, none⟩ : DirEntry) ∈ dir →
      (∀ e ∈ dir, e.name = f → e = ⟨f, true, none⟩) →
      dir.countP (fun e => decide (e.name = f)) = 1 →
      st.cache f = none → st.to_remove f = false →
      (match st.failed_to_load f with | none => 0 | some v => v) = base →
      (TapsFolder.refresh HttpTapsFolder.on_file_loaded st dir).cache f = none
      ∧ (TapsFolder.refresh HttpTapsFolder.on_file_loaded st dir).failed_to_load f
          = some (base + 1)
      ∧ (TapsFolder.refresh HttpTapsFolder.on_file_loaded st dir).to_remove f
          = decide (TapsFolder.max_load_retries ≤ base + 1)
      ∧ (∀ rid, st.index rid ≠ some f →
          (TapsFolder.refresh HttpTapsFolder.on_file_loaded st dir).index rid
            ≠ some f) := by
  induction dir with
  | nil => intro st f base _ hmem; exact absurd hmem (List.not_mem_nil _)
  | cons e rest ih =>
    intro st f base hjson hmem huni hcount hc hr hbase
    by_cases hn : e.name = f
    · have he : e = ⟨f, true, none⟩ := huni e (List.mem_cons_self e rest) hn
      subst he
      have hrest0 : rest.countP (fun e => decide (e.name = f)) = 0 := by
        have h1 : rest.countP (fun e => decide (e.name = f)) + 1 = 1 := by
          have h0 := hcount
          rwa [List.countP_cons, if_pos (by simp)] at h0
        omega
      have hrestf : ∀ x ∈ rest, x.name ≠ f := by
        intro x hx hxf
        have := List.countP_eq_zero.mp hrest0 x hx
        simp [hxf] at this
      have hstep : TapsFolder.refreshStep HttpTapsFolder.on_file_loaded st
          ⟨f, true, none⟩
          = TapsFolder.try_load_file HttpTapsFolder.on_file_loaded st f none := by
        unfold TapsFolder.refreshStep
        rw [if_neg (by simp [hc, hr]), if_pos rfl, if_pos hjson]
      have hload : TapsFolder.try_load_file HttpTapsFolder.on_file_loaded st f none
          = (if TapsFolder.max_load_retries ≤ base + 1 then
              { st with
                failed_to_load := fupd st.failed_to_load f (some (base + 1))
                to_remove := fupd st.to_remove f true }
            else
              { st with failed_to_load := fupd st.failed_to_load f (some (base + 1)) }) := by
        simp only [TapsFolder.try_load_file, hbase]
      have hrestother := refresh_other HttpTapsFolder.on_file_loaded rest
      by_cases hthr : TapsFolder.max_load_retries ≤ base + 1
      · rw [show TapsFolder.refresh HttpTapsFolder.on_file_loaded st
            (⟨f, true, none⟩ :: rest)
            = TapsFolder.refresh HttpTapsFolder.on_file_loaded
              (TapsFolder.refreshStep HttpTapsFolder.on_file_loaded st
                ⟨f, true, none⟩) rest from rfl, hstep, hload, if_pos hthr]
        obtain ⟨o1, o2, o3⟩ := hrestother _ f hrestf
        refine ⟨o1.trans hc, o3.trans (fupd_self _ _ _), ?_, ?_⟩
        · rw [o2.trans (fupd_self _ _ _)]
          simp [hthr]
        · intro rid hrid
          apply refresh_index_ne rest _ f
            (fun x hx hxf => absurd hxf (hrestf x hx)) rid
          exact hrid
      · rw [show TapsFolder.refresh HttpTapsFolder.on_file_loaded st
            (⟨f, true, none⟩ :: rest)
            = TapsFolder.refresh HttpTapsFolder.on_file_loaded
              (TapsFolder.refreshStep HttpTapsFolder.on_file_loaded st
                ⟨f, true, none⟩) rest from rfl, hstep, hload, if_neg hthr]
        obtain ⟨o1, o2, o3⟩ := hrestother _ f hrestf
        refine ⟨o1.trans hc, o3.trans (fupd_self _ _ _), ?_, ?_⟩
        · rw [o2.trans hr]
          simp [hthr]
        · intro rid hrid
          apply refresh_index_ne rest _ f
            (fun x hx hxf => absurd hxf (hrestf x hx)) rid
          exact hrid
    · have hother := refreshStep_other HttpTapsFolder.on_file_loaded st e f
        (fun hfe => hn hfe.symm)
      have hmem2 : (⟨f, true, none⟩ : DirEntry) ∈ rest := by
        rcases List.mem_cons.mp hmem with h | h
        · exact absurd (congrArg DirEntry.name h).symm hn
        · exact h
      have hcount2 : rest.countP (fun e => decide (e.name = f)) = 1 := by
        have := hcount
        rw [List.countP_cons] at this
        simp [hn] at this
        exact this
      have hidxstep : ∀ rid, st.index rid ≠ some f →
          (TapsFolder.refreshStep HttpTapsFolder.on_file_loaded st e).index rid
            ≠ some f := by
        intro rid hrid
        exact refreshStep_index_ne st e f (fun hfe => absurd hfe hn) rid hrid
      have hres := ih (TapsFolder.refreshStep HttpTapsFolder.on_file_loaded st e) f base
        hjson hmem2
        (fun x hx hxf => huni x (List.mem_cons_of_mem e hx) hxf)
        hcount2
        (by rw [hother.1]; exact hc)
        (by rw [hother.2.1]; exact hr)
        (by rw [hother.2.2]; exact hbase)
      exact ⟨hres.1, hres.2.1, hres.2.2.1,
        fun rid hrid => hres.2.2.2 rid (hidxstep rid hrid)⟩

theorem pop_filename_cache_fupd {ι : Type} (st : TapsFolder ι) (g : Str) (d : Json)
    (h : (TapsFolder.pop_filename st g).2 = some d) :
    st.cache g = some d
    ∧ (TapsFolder.pop_filename st g).1.cache = fupd st.cache g none := by
  unfold TapsFolder.pop_filename at *
  cases hcg : st.cache g with
  | none =>
    rw [hcg] at h
    exact Option.noConfusion h
  | some data =>
    rw [hcg] at h
    simp only at h ⊢
    constructor
    · split at h <;> exact h
    · split <;> rfl

theorem pop_filename_none_fst {ι : Type} (st : TapsFolder ι) (g : Str)
    (h : (TapsFolder.pop_filename st g).2 = none) :
    (TapsFolder.pop_filename st g).1 = st := by
  unfold TapsFolder.pop_filename at *
  cases hcg : st.cache g with
  | none => rfl
  | some data =>
    rw [hcg] at h
    simp only at h
    split at h <;> exact Option.noConfusion h

theorem entryLoop_cons_cases (entry : AccessLogEntry) (rest : List AccessLogEntry)
    (folder : TapsFolder (Str → Option Str)) :
    (∃ g : TapsFolder (Str → Option Str),
      g.cache = folder.cache
      ∧ HttpProcessor.entryLoop (entry :: rest) folder = HttpProcessor.entryLoop rest g)
    ∨ (∃ (g : TapsFolder (Str → Option Str)) (tap : Str),
      g.cache = fupd folder.cache tap none
      ∧ HttpProcessor.entryLoop (entry :: rest) folder = HttpProcessor.entryLoop rest g)
    ∨ (∃ (g : TapsFolder (Str → Option Str)) (tap : Str) (d : Json),
      folder.cache tap = some d
      ∧ g.cache = fupd folder.cache tap none
      ∧ HttpProcessor.entryLoop (entry :: rest) folder
          = ((HttpProcessor.entryLoop rest g).1,
             (tap, d) :: (HttpProcessor.entryLoop rest g).2)) := by
  simp only [HttpProcessor.entryLoop]
  split
  · exact Or.inl ⟨folder, rfl, rfl⟩
  · split
    · exact Or.inl ⟨folder, rfl, rfl⟩
    · split
      · refine Or.inl ⟨_, ?_, rfl⟩
        rfl
      · split
        · refine Or.inl ⟨_, ?_, rfl⟩
          rfl
        · split
          · rename_i h5
            refine Or.inl ⟨_, ?_, rfl⟩
            rw [pop_filename_none_fst _ _ h5]
          · rename_i h5
            have hfu := pop_filename_cache_fupd _ _ _ h5
            split
            · exact Or.inr (Or.inl ⟨_, _, hfu.2, rfl⟩)
            · exact Or.inr (Or.inr ⟨_, _, _, hfu.1, hfu.2, rfl⟩)

theorem entryLoop_archive_of_cache_none (entries : List AccessLogEntry) :
    ∀ (folder : TapsFolder (Str → Option Str)) (f : Str), folder.cache f = none →
      (∀ d, (f, d) ∉ (HttpProcessor.entryLoop entries folder).2)
      ∧ (HttpProcessor.entryLoop entries folder).1.cache f = none := by
  induction entries with
  | nil =>
    intro folder f h
    exact ⟨fun d hd => absurd hd (List.not_mem_nil _), h⟩
  | cons entry rest ih =>
    intro folder f h
    rcases entryLoop_cons_cases entry rest folder with
      ⟨g, hg, heq⟩ | ⟨g, tap, hg, heq⟩ | ⟨g, tap, d, htap, hg, heq⟩
    · rw [heq]
      exact ih g f (by rw [hg]; exact h)
    · rw [heq]
      apply ih g f
      rw [hg]
      by_cases hf : f = tap
      · subst hf; exact fupd_self _ _ _
      · rw [fupd_ne _ _ _ _ hf]; exact h
    · have hft : f ≠ tap := fun hc => by
        rw [hc, htap] at h
        exact Option.noConfusion h
      have hrest := ih g f (by
        rw [hg, fupd_ne _ _ _ _ hft]
        exact h)
      rw [heq]
      refine ⟨?_, hrest.2⟩
      intro d2 hd2
      rcases List.mem_cons.mp hd2 with hcase | hcase
      · exact hft (congrArg Prod.fst hcase)
      · exact hrest.1 d2 hcase

/-- C8: a `.json` tap file whose content fails JSON parsing on
`max_load_retries` (3) consecutive refresh attempts never enters the cache or
the request-id index, is scheduled for removal by the third refresh, is
deleted from the directory by the following cleanup, and never appears among
the consumed taps of a batch pass (archive members always come out of the
cache). -/
theorem failed_tap_dropped (st0 : TapsFolder (Str → Option Str)) (dir : List DirEntry)
    (f : Str)
    (hjson : List.isSuffixOf ".json".toList f = true)
    (hmem : (⟨f, true, none⟩ : DirEntry) ∈ dir)
    (huni : ∀ e ∈ dir, e.name = f → e = ⟨f, true, none⟩)
    (hcount : dir.countP (fun e => decide (e.name = f)) = 1)
    (hc : st0.cache f = none) (hr : st0.to_remove f = false)
    (hf0 : st0.failed_to_load f = none)
    (hidx : ∀ rid, st0.index rid ≠ some f) :
    ((TapsFolder.refresh HttpTapsFolder.on_file_loaded st0 dir).cache f = none
      ∧ (TapsFolder.refresh HttpTapsFolder.on_file_loaded
          (TapsFolder.refresh HttpTapsFolder.on_file_loaded st0 dir) dir).cache f = none
      ∧ (TapsFolder.refresh HttpTapsFolder.on_file_loaded
          (TapsFolder.refresh HttpTapsFolder.on_file_loaded
            (TapsFolder.refresh HttpTapsFolder.on_file_loaded st0 dir) dir) dir).cache f
        = none)
    ∧ ((TapsFolder.refresh HttpTapsFolder.on_file_loaded st0 dir).failed_to_load f
        = some 1
      ∧ (TapsFolder.refresh HttpTapsFolder.on_file_loaded
          (TapsFolder.refresh HttpTapsFolder.on_file_loaded st0 dir) dir).failed_to_load f
        = some 2
      ∧ (TapsFolder.refresh HttpTapsFolder.on_file_loaded
          (TapsFolder.refresh HttpTapsFolder.on_file_loaded
            (TapsFolder.refresh HttpTapsFolder.on_file_loaded st0 dir) dir)
          dir).failed_to_load f = some 3)
    ∧ ((TapsFolder.refresh HttpTapsFolder.on_file_loaded st0 dir).to_remove f = false
      ∧ (TapsFolder.refresh HttpTapsFolder.on_file_loaded
          (TapsFolder.refresh HttpTapsFolder.on_file_loaded st0 dir) dir).to_remove f
        = false
      ∧ (TapsFolder.refresh HttpTapsFolder.on_file_loaded
          (TapsFolder.refresh HttpTapsFolder.on_file_loaded
            (TapsFolder.refresh HttpTapsFolder.on_file_loaded st0 dir) dir)
          dir).to_remove f = true)
    ∧ (∀ rid, (TapsFolder.refresh HttpTapsFolder.on_file_loaded
        (TapsFolder.refresh HttpTapsFolder.on_file_loaded
          (TapsFolder.refresh HttpTapsFolder.on_file_loaded st0 dir) dir) dir).index rid
        ≠ some f)
    ∧ (∀ e ∈ (TapsFolder.cleanup
        (TapsFolder.refresh HttpTapsFolder.on_file_loaded
          (TapsFolder.refresh HttpTapsFolder.on_file_loaded
            (TapsFolder.refresh HttpTapsFolder.on_file_loaded st0 dir) dir) dir)
        dir).2, e.name ≠ f)
    ∧ (TapsFolder.cleanup
        (TapsFolder.refresh HttpTapsFolder.on_file_loaded
          (TapsFolder.refresh HttpTapsFolder.on_file_loaded
            (TapsFolder.refresh HttpTapsFolder.on_file_loaded st0 dir) dir) dir)
        dir).1.cache f = none
    ∧ (TapsFolder.cleanup
        (TapsFolder.refresh HttpTapsFolder.on_file_loaded
          (TapsFolder.refresh HttpTapsFolder.on_file_loaded
            (TapsFolder.refresh HttpTapsFolder.on_file_loaded st0 dir) dir) dir)
        dir).1.failed_to_load f = none
    ∧ (∀ (st : TapsFolder (Str → Option Str)) (entries : List AccessLogEntry) (d : Json),
        st.cache f = none → (f, d) ∉ (HttpProcessor.entryLoop entries st).2) := by
  have s1 := refresh_failing_file dir st0 f 0 hjson hmem huni hcount hc hr (by rw [hf0])
  have hr1 : (TapsFolder.refresh HttpTapsFolder.on_file_loaded st0 dir).to_remove f
      = false := by rw [s1.2.2.1]; decide
  have s2 := refresh_failing_file dir _ f 1 hjson hmem huni hcount s1.1 hr1
    (by rw [s1.2.1])
  have hr2 : (TapsFolder.refresh HttpTapsFolder.on_file_loaded
      (TapsFolder.refresh HttpTapsFolder.on_file_loaded st0 dir) dir).to_remove f
      = false := by rw [s2.2.2.1]; decide
  have s3 := refresh_failing_file dir _ f 2 hjson hmem huni hcount s2.1 hr2
    (by rw [s2.2.1])
  have hr3 : (TapsFolder.refresh HttpTapsFolder.on_file_loaded
      (TapsFolder.refresh HttpTapsFolder.on_file_loaded
        (TapsFolder.refresh HttpTapsFolder.on_file_loaded st0 dir) dir) dir).to_remove f
      = true := by rw [s3.2.2.1]; decide
  refine ⟨⟨s1.1, s2.1, s3.1⟩, ⟨by rw [s1.2.1], by rw [s2.2.1], by rw [s3.2.1]⟩,
    ⟨hr1, hr2, hr3⟩, ?_, ?_, ?_, ?_, ?_⟩
  · intro rid
    exact s3.2.2.2 rid (s2.2.2.2 rid (s1.2.2.2 rid (hidx rid)))
  · intro e he hef
    have hin := (List.mem_filter.mp he).1
    have hpred := (List.mem_filter.mp he).2
    have hee : e = ⟨f, true, none⟩ := huni e hin hef
    subst hee
    simp only [hef] at hpred
    rw [hr3] at hpred
    simp at hpred
  · simp only [TapsFolder.cleanup, hr3]
    simp
  · simp only [TapsFolder.cleanup, hr3]
    simp
  · intro st entries d hcache hmem2
    exact (entryLoop_archive_of_cache_none entries st f hcache).1 d hmem2

/-- Instance of `failed_tap_dropped`: after three refreshes over a directory
holding one unparsable tap file, the file is scheduled for removal. -/
theorem failed_tap_dropped_witness :
    (TapsFolder.refresh HttpTapsFolder.on_file_loaded
      (TapsFolder.refresh HttpTapsFolder.on_file_loaded
        (TapsFolder.refresh HttpTapsFolder.on_file_loaded
          (TapsFolder.init (fun _ => none)) [⟨"bad.json".toList, true, none⟩])
        [⟨"bad.json".toList, true, none⟩])
      [⟨"bad.json".toList, true, none⟩]).to_remove "bad.json".toList = true :=
  (failed_tap_dropped (TapsFolder.init (fun _ => none))
    [⟨"bad.json".toList, true, none⟩] "bad.json".toList (by decide)
    (List.mem_singleton.mpr rfl)
    (by
      intro e he _
      rw [List.mem_singleton] at he
      exact he)
    rfl rfl rfl rfl (fun rid h => Option.noConfusion h)).2.2.1.2.2

/-- Instance of `pop_filename_falsy_survives` on a one-file directory: after
the falsy pop and a cleanup, the next refresh caches the file again. -/
theorem pop_filename_falsy_survives_witness :
    (TapsFolder.refresh (fun (i : Unit) _ _ => i)
        (TapsFolder.cleanup
          (TapsFolder.pop_filename
            (⟨fupd (fun _ => none) "c.json".toList (some (Json.obj [])),
              fun _ => false, fun _ => false, fun _ => none, ()⟩ : TapsFolder Unit)
            "c.json".toList).1
          [⟨"c.json".toList, true, some (Json.obj [])⟩]).1
        (TapsFolder.cleanup
          (TapsFolder.pop_filename
            (⟨fupd (fun _ => none) "c.json".toList (some (Json.obj [])),
              fun _ => false, fun _ => false, fun _ => none, ()⟩ : TapsFolder Unit)
            "c.json".toList).1
          [⟨"c.json".toList, true, some (Json.obj [])⟩]).2).cache "c.json".toList
      = some (Json.obj []) :=
  (pop_filename_falsy_survives (fun (i : Unit) _ _ => i)
    (⟨fupd (fun _ => none) "c.json".toList (some (Json.obj [])),
      fun _ => false, fun _ => false, fun _ => none, ()⟩ : TapsFolder Unit)
    "c.json".toList [⟨"c.json".toList, true, some (Json.obj [])⟩]
    rfl rfl (List.mem_singleton.mpr rfl)
    (by
      intro e he _
      rw [List.mem_singleton] at he
      exact he)
    (by decide)).2.2.2.2

/-! ## C5 : the persisted access-log offset -/

theorem readLoop_empty_pos (lines : List LogLine) :
    ∀ (pos m : Nat), (AccessLogReader.readLoop lines pos m).1 = [] →
      (AccessLogReader.readLoop lines pos m).2 = pos := by
  induction lines with
  | nil => intro pos m _; rfl
  | cons l rest ih =>
    intro pos m h
    cases hd : l.data with
    | none =>
      simp only [AccessLogReader.readLoop, hd] at h ⊢
      exact ih pos m h
    | some d =>
      simp only [AccessLogReader.readLoop, hd] at h
      split at h <;> exact absurd h (by simp)

theorem readLoop_getLast_pos (lines : List LogLine) :
    ∀ (pos m : Nat) (e : AccessLogEntry),
      (AccessLogReader.readLoop lines pos m).1.getLast? = some e →
      (AccessLogReader.readLoop lines pos m).2 = e.end_position := by
  induction lines with
  | nil => intro pos m e h; exact absurd h (by simp [AccessLogReader.readLoop])
  | cons l rest ih =>
    intro pos m e h
    cases hd : l.data with
    | none =>
      simp only [AccessLogReader.readLoop, hd] at h ⊢
      exact ih pos m e h
    | some d =>
      simp only [AccessLogReader.readLoop, hd] at h ⊢
      split at h
      · next hm =>
        simp only [List.getLast?_singleton, Option.some.injEq] at h
        rw [if_pos hm, ← h]
      · next hm =>
        rw [if_neg hm]
        cases hrest : (AccessLogReader.readLoop rest l.endPos (m - 1)).1 with
        | nil =>
          rw [hrest] at h
          simp only [List.getLast?_singleton, Option.some.injEq] at h
          rw [readLoop_empty_pos rest l.endPos (m - 1) hrest, ← h]
        | cons b t =>
          rw [hrest] at h
          rw [List.getLast?_cons_cons] at h
          have := ih l.endPos (m - 1) e (by rw [hrest]; exact h)
          exact this

theorem readLoop_mem_pos (lines : List LogLine) :
    ∀ (pos m : Nat) (a : AccessLogEntry),
      a ∈ (AccessLogReader.readLoop lines pos m).1 →
      ∃ l ∈ lines, l.endPos = a.end_position := by
  induction lines with
  | nil => intro pos m a h; exact absurd h (by simp [AccessLogReader.readLoop])
  | cons l rest ih =>
    intro pos m a h
    cases hd : l.data with
    | none =>
      simp only [AccessLogReader.readLoop, hd] at h
      obtain ⟨x, hx, he⟩ := ih pos m a h
      exact ⟨x, List.mem_cons_of_mem l hx, he⟩
    | some d =>
      simp only [AccessLogReader.readLoop, hd] at h
      split at h
      · rw [List.mem_singleton] at h
        exact ⟨l, List.mem_cons_self l rest, by rw [h]⟩
      · rcases List.mem_cons.mp h with hcase | hcase
        · exact ⟨l, List.mem_cons_self l rest, by rw [hcase]⟩
        · obtain ⟨x, hx, he⟩ := ih l.endPos (m - 1) a hcase
          exact ⟨x, List.mem_cons_of_mem l hx, he⟩

theorem dropWhile_pos_lt (pos : Nat) (file : List LogLine)
    (hsort : List.Pairwise (fun a b => a.endPos < b.endPos) file) :
    ∀ l ∈ file.dropWhile (fun x => decide (x.endPos ≤ pos)), pos < l.endPos := by
  induction file with
  | nil => intro l h; exact absurd h (by simp)
  | cons hd rest ih =>
    intro l h
    by_cases hle : hd.endPos ≤ pos
    · rw [List.dropWhile_cons_of_pos (by simpa using hle)] at h
      exact ih (List.Pairwise.sublist (List.sublist_cons_self hd rest) hsort) l h
    · rw [List.dropWhile_cons_of_neg (by simpa using hle)] at h
      rcases List.mem_cons.mp h with hcase | hcase
      · rw [hcase]; omega
      · have := (List.pairwise_cons.mp hsort).1 l hcase
        omega

theorem read_new_entries_beyond (file : List LogLine) (pos m : Nat)
    (hsort : List.Pairwise (fun a b => a.endPos < b.endPos) file) :
    ∀ a ∈ (AccessLogReader.read_new_entries file pos m).1, pos < a.end_position := by
  intro a ha
  obtain ⟨l, hl, hle⟩ :=
    readLoop_mem_pos (file.dropWhile (fun x => decide (x.endPos ≤ pos))) pos m a ha
  have := dropWhile_pos_lt pos file hsort l hl
  omega

/-- C5 counterexample: a cycle with two read entries in which the first
fails to match any cached tap (its `stream_id` "a" has no indexed tap file,
while "b" has).  The persisted offset is nevertheless advanced to the end
position 20 of the last read entry, past the unmatched entry at 10, and the
next `read_new_entries` call from the persisted offset produces nothing, so
the unmatched entry is never seen again — contradicting the claim that the
offset is not advanced past an unmatched entry. -/
theorem access_log_offset_cex :
    ((AccessLogReader.read_new_entries
        [⟨10, some (Json.obj [("stream_id".toList, Json.str "a".toList)])⟩,
         ⟨20, some (Json.obj [("stream_id".toList, Json.str "b".toList)])⟩]
        0 1000).1.map (fun a => a.end_position)) = [10, 20]
    ∧ (TapsFolder.refresh HttpTapsFolder.on_file_loaded
        (TapsFolder.init (fun _ => none))
        [⟨"b.json".toList, true,
          some (Json.obj [("http_buffered_trace".toList, Json.obj
            [("request".toList, Json.obj
              [("headers".toList, Json.arr
                [Json.obj [("key".toList, Json.str "x-request-id".toList),
                  ("value".toList, Json.str "b".toList)]])])])])⟩]).index "a".toList
      = none
    ∧ (HttpProcessor.process_new_access_log_entries
        ⟨0, 0, TapsFolder.init (fun _ => none)⟩
        [⟨10, some (Json.obj [("stream_id".toList, Json.str "a".toList)])⟩,
         ⟨20, some (Json.obj [("stream_id".toList, Json.str "b".toList)])⟩]
        [⟨"b.json".toList, true,
          some (Json.obj [("http_buffered_trace".toList, Json.obj
            [("request".toList, Json.obj
              [("headers".toList, Json.arr
                [Json.obj [("key".toList, Json.str "x-request-id".toList),
                  ("value".toList, Json.str "b".toList)]])])])])⟩]).1.persisted_position
      = 20
    ∧ (AccessLogReader.read_new_entries
        [⟨10, some (Json.obj [("stream_id".toList, Json.str "a".toList)])⟩,
         ⟨20, some (Json.obj [("stream_id".toList, Json.str "b".toList)])⟩]
        20 1000).1.length = 0 := by
  exact ⟨rfl, rfl, rfl, rfl⟩

/-- C5 (amended): the batch pass persists the read offset at the end
position of the last read entry whether or not every entry matched a cached
tap; the in-memory reader position ends at the same place, and (for a log
whose line positions strictly increase) every entry a later read produces
lies strictly beyond that offset, so entries read in this cycle — matched or
unmatched — are never produced again. -/
theorem access_log_offset_advances (st : HttpProcessorState) (file : List LogLine)
    (dir : List DirEntry) (e : AccessLogEntry)
    (hlast : (AccessLogReader.read_new_entries file st.last_position 1000).1.getLast?
      = some e)
    (hsort : List.Pairwise (fun a b => a.endPos < b.endPos) file) :
    (HttpProcessor.process_new_access_log_entries st file dir).1.persisted_position
        = e.end_position
    ∧ (HttpProcessor.process_new_access_log_entries st file dir).1.last_position
        = e.end_position
    ∧ ∀ m a, a ∈ (AccessLogReader.read_new_entries file e.end_position m).1 →
        e.end_position < a.end_position := by
  refine ⟨?_, ?_, ?_⟩
  · simp only [HttpProcessor.process_new_access_log_entries, hlast]
  · simp only [HttpProcessor.process_new_access_log_entries]
    exact readLoop_getLast_pos _ st.last_position 1000 e hlast
  · intro m a ha
    exact read_new_entries_beyond file e.end_position m hsort a ha

/-- Instance of `access_log_offset_advances` on a one-line log (whose entry
matches no tap: the directory is empty). -/
theorem access_log_offset_advances_witness :
    (HttpProcessor.process_new_access_log_entries
        ⟨0, 0, TapsFolder.init (fun _ => none)⟩
        [⟨10, some (Json.obj [])⟩] []).1.persisted_position
      = (⟨Json.obj [], 10⟩ : AccessLogEntry).end_position :=
  (access_log_offset_advances ⟨0, 0, TapsFolder.init (fun _ => none)⟩
    [⟨10, some (Json.obj [])⟩] [] ⟨Json.obj [], 10⟩ rfl (by simp)).1

/-! ## C6 : session links -/

theorem pairLt_iff (a b : Nat × Nat) :
    pairLt a b = true ↔ a.1 < b.1 ∨ (a.1 = b.1 ∧ a.2 < b.2) := by
  simp [pairLt]

theorem pairLt_false_iff (a b : Nat × Nat) :
    pairLt a b = false ↔ b.1 < a.1 ∨ (b.1 = a.1 ∧ b.2 ≤ a.2) := by
  rw [← Bool.not_eq_true, pairLt_iff]
  constructor
  · intro h
    rcases Nat.lt_trichotomy a.1 b.1 with h1 | h1 | h1
    · exact absurd (Or.inl h1) h
    · right
      refine ⟨h1.symm, ?_⟩
      by_contra h2
      exact h (Or.inr ⟨h1, by omega⟩)
    · exact Or.inl h1
  · intro h h2
    rcases h with h | h <;> rcases h2 with h2 | h2 <;> omega

theorem insort_mem (x : Nat × Nat) : ∀ (l : List (Nat × Nat)) (y : Nat × Nat),
    y ∈ SessionRequests.insort l x ↔ y = x ∨ y ∈ l := by
  intro l
  induction l with
  | nil => intro y; simp [SessionRequests.insort]
  | cons e t ih =>
    intro y
    unfold SessionRequests.insort
    split
    · simp only [List.mem_cons]
    · simp only [List.mem_cons, ih]
      tauto

theorem insort_sorted (x : Nat × Nat) : ∀ (l : List (Nat × Nat)),
    List.Pairwise (fun a b => pairLt b a = false) l →
    List.Pairwise (fun a b => pairLt b a = false) (SessionRequests.insort l x) := by
  intro l
  induction l with
  | nil => intro _; simp [SessionRequests.insort]
  | cons e t ih =>
    intro hsort
    have hs := List.pairwise_cons.mp hsort
    unfold SessionRequests.insort
    split
    · next hlt =>
      refine List.pairwise_cons.mpr ⟨?_, hsort⟩
      intro y hy
      rcases List.mem_cons.mp hy with rfl | hy2
      · rw [pairLt_false_iff]
        rw [pairLt_iff] at hlt
        rcases hlt with h | h
        · exact Or.inl h
        · exact Or.inr ⟨h.1, by omega⟩
      · have he := hs.1 y hy2
        rw [pairLt_false_iff] at he ⊢
        rw [pairLt_iff] at hlt
        rcases he with h | h <;> rcases hlt with h2 | h2
        · exact Or.inl (by omega)
        · exact Or.inl (by omega)
        · exact Or.inl (by omega)
        · exact Or.inr ⟨by omega, by omega⟩
    · next hnlt =>
      refine List.pairwise_cons.mpr ⟨?_, ih hs.2⟩
      intro y hy
      rcases (insort_mem x t y).mp hy with rfl | hy2
      · simpa using hnlt
      · exact hs.1 y hy2

theorem sorted_countP_get (p : Nat × Nat → Bool)
    (hdc : ∀ a b : Nat × Nat, pairLt b a = false → p b = true → p a = true) :
    ∀ (l : List (Nat × Nat)),
      List.Pairwise (fun a b => pairLt b a = false) l →
      (∀ j, (hj : j < l.length) → j < l.countP p → p l[j] = true)
      ∧ (∀ j, (hj : j < l.length) → l.countP p ≤ j → p l[j] = false) := by
  intro l
  induction l with
  | nil =>
    intro _
    constructor <;> (intro j hj; simp at hj)
  | cons e t ih =>
    intro hsort
    have hs := List.pairwise_cons.mp hsort
    obtain ⟨ih1, ih2⟩ := ih hs.2
    by_cases hpe : p e = true
    · have hcount : (e :: t).countP p = t.countP p + 1 := by
        rw [List.countP_cons, if_pos (by simpa using hpe)]
      constructor
      · intro j hj hlt
        cases j with
        | zero => simpa using hpe
        | succ j2 =>
          have hj2 : j2 < t.length := by simpa using hj
          have : j2 < t.countP p := by omega
          simpa using ih1 j2 hj2 this
      · intro j hj hge
        rw [hcount] at hge
        cases j with
        | zero => omega
        | succ j2 =>
          have hj2 : j2 < t.length := by simpa using hj
          have : t.countP p ≤ j2 := by omega
          simpa using ih2 j2 hj2 this
    · have hall : ∀ y ∈ t, p y = false := by
        intro y hy
        by_contra hc
        have hpy : p y = true := by simpa using hc
        exact hpe (hdc e y (hs.1 y hy) hpy)
      have hcount : (e :: t).countP p = 0 := by
        rw [List.countP_cons, if_neg (by simpa using hpe)]
        have h0 : t.countP p = 0 := List.countP_eq_zero.mpr (by
          intro y hy
          simp [hall y hy])
        omega
      constructor
      · intro j hj hlt
        omega
      · intro j hj _
        cases j with
        | zero => simpa using hpe
        | succ j2 =>
          have hj2 : j2 < t.length := by simpa using hj
          have : (e :: t)[j2 + 1] = t[j2] := by simp
          rw [this]
          exact hall t[j2] (List.getElem_mem hj2)

theorem find_request_before_spec (l : List (Nat × Nat))
    (hsort : List.Pairwise (fun a b => pairLt b a = false) l) (ts rid : Nat)
    (h : SessionRequests.find_request_before l ts = some rid) :
    ∃ ts2, (ts2, rid) ∈ l ∧ ts2 < ts := by
  unfold SessionRequests.find_request_before at h
  simp only at h
  split at h
  · next h0 =>
    have hile : l.countP (fun e => pairLt e (ts, 0)) ≤ l.length :=
      List.countP_le_length _
    have hlt : l.countP (fun e => pairLt e (ts, 0)) - 1 < l.length := by omega
    rw [List.getElem?_eq_getElem hlt] at h
    simp only [Option.map_some', Option.some.injEq] at h
    have hdc : ∀ a b : Nat × Nat, pairLt b a = false →
        (fun e => pairLt e (ts, 0)) b = true → (fun e => pairLt e (ts, 0)) a = true := by
      intro a b hab hb
      simp only at hb ⊢
      rw [pairLt_iff] at hb ⊢
      rw [pairLt_false_iff] at hab
      rcases hb with hb | hb <;> rcases hab with hab | hab
      · exact Or.inl (by omega)
      · exact Or.inl (by omega)
      · omega
      · omega
    have hp := (sorted_countP_get _ hdc l hsort).1
      (l.countP (fun e => pairLt e (ts, 0)) - 1) hlt (by omega)
    simp only at hp
    rw [pairLt_iff] at hp
    have hts : (l[l.countP (fun e => pairLt e (ts, 0)) - 1]).1 < ts := by
      rcases hp with hp | hp
      · exact hp
      · omega
    refine ⟨(l[l.countP (fun e => pairLt e (ts, 0)) - 1]).1, ?_, hts⟩
    rw [← h]
    have : ((l[l.countP (fun e => pairLt e (ts, 0)) - 1]).1,
        (l[l.countP (fun e => pairLt e (ts, 0)) - 1]).2)
        = l[l.countP (fun e => pairLt e (ts, 0)) - 1] := rfl
    rw [this]
    exact List.getElem_mem hlt
  · exact Option.noConfusion h

theorem find_request_after_spec (l : List (Nat × Nat))
    (hsort : List.Pairwise (fun a b => pairLt b a = false) l) (ts rid : Nat)
    (h : SessionRequests.find_request_after l ts = some rid) :
    ∃ ts2, (ts2, rid) ∈ l ∧ ts < ts2 := by
  unfold SessionRequests.find_request_after at h
  simp only at h
  cases hx : l[l.countP (fun e => decide (e.1 ≤ ts))]? with
  | none => rw [hx] at h; exact Option.noConfusion h
  | some x =>
    rw [hx] at h
    simp only [Option.map_some', Option.some.injEq] at h
    have hlt : l.countP (fun e => decide (e.1 ≤ ts)) < l.length := by
      by_contra hc
      rw [List.getElem?_eq_none (by omega)] at hx
      exact Option.noConfusion hx
    rw [List.getElem?_eq_getElem hlt] at hx
    have hxe : x = l[l.countP (fun e => decide (e.1 ≤ ts))] :=
      (Option.some.inj hx).symm
    have hdc : ∀ a b : Nat × Nat, pairLt b a = false →
        (fun e => decide (e.1 ≤ ts)) b = true →
        (fun e => decide (e.1 ≤ ts)) a = true := by
      intro a b hab hb
      simp only [decide_eq_true_eq] at hb ⊢
      rw [pairLt_false_iff] at hab
      rcases hab with hab | hab <;> omega
    have hp := (sorted_countP_get _ hdc l hsort).2
      (l.countP (fun e => decide (e.1 ≤ ts))) hlt (Nat.le_refl _)
    simp only [decide_eq_false_iff_not, Nat.not_le] at hp
    refine ⟨x.1, ?_, by rw [hxe]; exact hp⟩
    rw [← h]
    have : (x.1, x.2) = x := rfl
    rw [this, hxe]
    exact List.getElem_mem hlt

theorem mem_fupd_timeline (tl : Nat × Str → List (Nat × Nat)) (k : Nat × Str)
    (x : Nat × Nat) (q : Nat × Str) (y : Nat × Nat)
    (h : y ∈ fupd tl k (SessionRequests.insort (tl k) x) q) :
    y ∈ tl q ∨ (q = k ∧ y = x) := by
  by_cases hq : q = k
  · rw [hq, fupd_self] at h
    rcases (insort_mem _ _ _).mp h with heq | hmem
    · exact Or.inr ⟨hq, heq⟩
    · rw [hq]
      exact Or.inl hmem
  · rw [fupd_ne _ _ _ _ hq] at h
    exact Or.inl h

theorem sorted_fupd_timeline (tl : Nat × Str → List (Nat × Nat)) (k : Nat × Str)
    (x : Nat × Nat) (q : Nat × Str)
    (hall : ∀ w : Nat × Str, List.Pairwise (fun a b => pairLt b a = false) (tl w)) :
    List.Pairwise (fun a b => pairLt b a = false)
      (fupd tl k (SessionRequests.insort (tl k) x) q) := by
  by_cases hq : q = k
  · rw [hq, fupd_self]
    exact insort_sorted _ _ (hall k)
  · rw [fupd_ne _ _ _ _ hq]
    exact hall q

theorem add_request_requests_sub (st : SessionsStorage) (cp crid cts : Nat)
    (cin cout : Option Str) (p rid : Nat) (info : RequestInfo)
    (h : (st.add_request cp crid cts cin cout).requests (p, rid) = some info) :
    st.requests (p, rid) = some info
    ∨ (p = cp ∧ rid = crid ∧ info = ⟨cts, cin, cout⟩) := by
  unfold SessionsStorage.add_request at h
  simp only at h
  repeat' (split at h)
  all_goals
    first
    | exact Or.inl h
    | (by_cases hpk : ((p, rid) : Nat × Nat) = (cp, crid)
       · rw [hpk] at h
         simp only [fupd_self] at h
         exact Or.inr ⟨congrArg Prod.fst hpk, congrArg Prod.snd hpk,
           (Option.some.inj h).symm⟩
       · simp only [fupd_ne _ _ _ _ hpk] at h
         exact Or.inl h)

theorem add_request_reqsessions_sub (st : SessionsStorage) (cp crid cts : Nat)
    (cin cout : Option Str) (p : Nat) (s : Str) (ts rid : Nat)
    (h : (ts, rid) ∈ (st.add_request cp crid cts cin cout).request_sessions (p, s)) :
    (ts, rid) ∈ st.request_sessions (p, s)
    ∨ (p = cp ∧ rid = crid ∧ ts = cts ∧ cin = some s) := by
  unfold SessionsStorage.add_request at h
  simp only at h
  repeat' (split at h)
  all_goals
    first
    | exact Or.inl h
    | (rcases mem_fupd_timeline _ _ _ _ _ h with hmem | ⟨hq, hy⟩
       · exact Or.inl hmem
       · exact Or.inr ⟨congrArg Prod.fst hq, ((Prod.mk.injEq _ _ _ _).mp hy).2,
           ((Prod.mk.injEq _ _ _ _).mp hy).1, by rw [((Prod.mk.injEq _ _ _ _).mp hq).2]⟩)

theorem add_request_respsessions_sub (st : SessionsStorage) (cp crid cts : Nat)
    (cin cout : Option Str) (p : Nat) (s : Str) (ts rid : Nat)
    (h : (ts, rid) ∈ (st.add_request cp crid cts cin cout).response_sessions (p, s)) :
    (ts, rid) ∈ st.response_sessions (p, s)
    ∨ (p = cp ∧ rid = crid ∧ ts = cts ∧ cout = some s) := by
  unfold SessionsStorage.add_request at h
  simp only at h
  repeat' (split at h)
  all_goals
    first
    | exact Or.inl h
    | (rcases mem_fupd_timeline _ _ _ _ _ h with hmem | ⟨hq, hy⟩
       · exact Or.inl hmem
       · exact Or.inr ⟨congrArg Prod.fst hq, ((Prod.mk.injEq _ _ _ _).mp hy).2,
           ((Prod.mk.injEq _ _ _ _).mp hy).1, by rw [((Prod.mk.injEq _ _ _ _).mp hq).2]⟩)

theorem add_request_sorted (st : SessionsStorage) (cp crid cts : Nat)
    (cin cout : Option Str)
    (h1 : ∀ p s, List.Pairwise (fun a b => pairLt b a = false)
      (st.request_sessions (p, s)))
    (h2 : ∀ p s, List.Pairwise (fun a b => pairLt b a = false)
      (st.response_sessions (p, s))) :
    (∀ p s, List.Pairwise (fun a b => pairLt b a = false)
      ((st.add_request cp crid cts cin cout).request_sessions (p, s)))
    ∧ (∀ p s, List.Pairwise (fun a b => pairLt b a = false)
      ((st.add_request cp crid cts cin cout).response_sessions (p, s))) := by
  constructor
  · intro p s
    unfold SessionsStorage.add_request
    simp only
    repeat' split
    all_goals
      first
      | exact h1 p s
      | exact sorted_fupd_timeline _ _ _ _ (fun w => h1 w.1 w.2)
  · intro p s
    unfold SessionsStorage.add_request
    simp only
    repeat' split
    all_goals
      first
      | exact h2 p s
      | exact sorted_fupd_timeline _ _ _ _ (fun w => h2 w.1 w.2)

theorem run_inv (calls : List AddRequestCall) : ∀ (st : SessionsStorage),
    (∀ p rid info,
      (calls.foldl (fun s c =>
        s.add_request c.port c.request_id c.start_time c.in_session c.out_session)
        st).requests (p, rid) = some info →
      st.requests (p, rid) = some info
      ∨ ∃ c ∈ calls, c.port = p ∧ c.request_id = rid ∧ c.start_time = info.start_time
          ∧ c.in_session = info.session_in ∧ c.out_session = info.session_out)
    ∧ (∀ p s ts rid,
      (ts, rid) ∈ (calls.foldl (fun s c =>
        s.add_request c.port c.request_id c.start_time c.in_session c.out_session)
        st).request_sessions (p, s) →
      (ts, rid) ∈ st.request_sessions (p, s)
      ∨ ∃ c ∈ calls, c.port = p ∧ c.request_id = rid ∧ c.start_time = ts
          ∧ c.in_session = some s)
    ∧ (∀ p s ts rid,
      (ts, rid) ∈ (calls.foldl (fun s c =>
        s.add_request c.port c.request_id c.start_time c.in_session c.out_session)
        st).response_sessions (p, s) →
      (ts, rid) ∈ st.response_sessions (p, s)
      ∨ ∃ c ∈ calls, c.port = p ∧ c.request_id = rid ∧ c.start_time = ts
          ∧ c.out_session = some s) := by
  induction calls with
  | nil =>
    intro st
    exact ⟨fun p rid info h => Or.inl h, fun p s ts rid h => Or.inl h,
      fun p s ts rid h => Or.inl h⟩
  | cons c rest ih =>
    intro st
    obtain ⟨ih1, ih2, ih3⟩ :=
      ih (st.add_request c.port c.request_id c.start_time c.in_session c.out_session)
    refine ⟨?_, ?_, ?_⟩
    · intro p rid info h
      rcases ih1 p rid info h with hstep | ⟨c2, hc2, hrest⟩
      · rcases add_request_requests_sub st c.port c.request_id c.start_time
          c.in_session c.out_session p rid info hstep with hbase | ⟨hp, hrid, hinfo⟩
        · exact Or.inl hbase
        · refine Or.inr ⟨c, List.mem_cons_self c rest, hp.symm, hrid.symm, ?_, ?_, ?_⟩
          · rw [hinfo]
          · rw [hinfo]
          · rw [hinfo]
      · exact Or.inr ⟨c2, List.mem_cons_of_mem c hc2, hrest⟩
    · intro p s ts rid h
      rcases ih2 p s ts rid h with hstep | ⟨c2, hc2, hrest⟩
      · rcases add_request_reqsessions_sub st c.port c.request_id c.start_time
          c.in_session c.out_session p s ts rid hstep with hbase | ⟨hp, hrid, hts, hin⟩
        · exact Or.inl hbase
        · exact Or.inr ⟨c, List.mem_cons_self c rest, hp.symm, hrid.symm, hts.symm, hin⟩
      · exact Or.inr ⟨c2, List.mem_cons_of_mem c hc2, hrest⟩
    · intro p s ts rid h
      rcases ih3 p s ts rid h with hstep | ⟨c2, hc2, hrest⟩
      · rcases add_request_respsessions_sub st c.port c.request_id c.start_time
          c.in_session c.out_session p s ts rid hstep with hbase | ⟨hp, hrid, hts, hout⟩
        · exact Or.inl hbase
        · exact Or.inr ⟨c, List.mem_cons_self c rest, hp.symm, hrid.symm, hts.symm, hout⟩
      · exact Or.inr ⟨c2, List.mem_cons_of_mem c hc2, hrest⟩

theorem run_sorted (calls : List AddRequestCall) : ∀ (st : SessionsStorage),
    (∀ p s, List.Pairwise (fun a b => pairLt b a = false) (st.request_sessions (p, s))) →
    (∀ p s, List.Pairwise (fun a b => pairLt b a = false) (st.response_sessions (p, s))) →
    (∀ p s, List.Pairwise (fun a b => pairLt b a = false)
      ((calls.foldl (fun s c =>
        s.add_request c.port c.request_id c.start_time c.in_session c.out_session)
        st).request_sessions (p, s)))
    ∧ (∀ p s, List.Pairwise (fun a b => pairLt b a = false)
      ((calls.foldl (fun s c =>
        s.add_request c.port c.request_id c.start_time c.in_session c.out_session)
        st).response_sessions (p, s))) := by
  induction calls with
  | nil => intro st h1 h2; exact ⟨h1, h2⟩
  | cons c rest ih =>
    intro st h1 h2
    have hstep := add_request_sorted st c.port c.request_id c.start_time
      c.in_session c.out_session h1 h2
    exact ih _ hstep.1 hstep.2

/-- C6: every `Link` returned by `get_links` after a sequence of
`add_request` calls connects two requests that were added on the queried
port, and the link direction matches the temporal order of their recorded
start times: some call added the from-endpoint id on that port strictly
before (in start time) the call that added the to-endpoint id. -/
theorem sessions_links_ordered (calls : List AddRequestCall) (port rid : Nat)
    (lnk : Link)
    (hlnk : lnk ∈ (SessionsStorage.run calls).get_links port rid) :
    ∃ cf ∈ calls, ∃ ct ∈ calls,
      cf.port = port ∧ ct.port = port
      ∧ cf.request_id = lnk.from_request_id ∧ ct.request_id = lnk.to_request_id
      ∧ cf.start_time < ct.start_time := by
  have hinv := run_inv calls SessionsStorage.init
  have hsorted := run_sorted calls SessionsStorage.init
    (fun p s => List.Pairwise.nil) (fun p s => List.Pairwise.nil)
  unfold SessionsStorage.get_links at hlnk
  cases hreq : (SessionsStorage.run calls).requests (port, rid) with
  | none =>
    rw [hreq] at hlnk
    simp at hlnk
  | some info =>
    rw [hreq] at hlnk
    simp only at hlnk
    have hanchor := (hinv.1 port rid info hreq).resolve_left
      (fun hc => Option.noConfusion hc)
    obtain ⟨ca, hca_mem, hca_port, hca_rid, hca_ts, hca_in, hca_out⟩ := hanchor
    rcases List.mem_append.mp hlnk with hin | hout
    · cases hsin : info.session_in with
      | none => rw [hsin] at hin; simp at hin
      | some s =>
        rw [hsin] at hin
        simp only at hin
        by_cases hse : s.isEmpty = true
        · rw [if_neg (by simp [hse])] at hin
          simp at hin
        · rw [if_pos (by simp [Bool.not_eq_true] at hse ⊢; exact hse)] at hin
          cases hfind : SessionRequests.find_request_before
              ((SessionsStorage.run calls).request_sessions (port, s))
              info.start_time with
          | none => rw [hfind] at hin; simp at hin
          | some frid =>
            rw [hfind] at hin
            simp only [List.mem_singleton] at hin
            obtain ⟨ts2, hts2_mem, hts2_lt⟩ := find_request_before_spec _
              (hsorted.1 port s) info.start_time frid hfind
            have hfrom := (hinv.2.1 port s ts2 frid hts2_mem).resolve_left
              (fun hc => List.not_mem_nil _ hc)
            obtain ⟨cf, hcf_mem, hcf_port, hcf_rid, hcf_ts, hcf_in⟩ := hfrom
            refine ⟨cf, hcf_mem, ca, hca_mem, hcf_port, hca_port, ?_, ?_, ?_⟩
            · rw [hin]
              exact hcf_rid
            · rw [hin]
              exact hca_rid
            · rw [hcf_ts, hca_ts]
              exact hts2_lt
    · cases hsout : info.session_out with
      | none => rw [hsout] at hout; simp at hout
      | some s =>
        rw [hsout] at hout
        simp only at hout
        by_cases hse : s.isEmpty = true
        · rw [if_neg (by simp [hse])] at hout
          simp at hout
        · rw [if_pos (by simp [Bool.not_eq_true] at hse ⊢; exact hse)] at hout
          cases hfind : SessionRequests.find_request_after
              ((SessionsStorage.run calls).response_sessions (port, s))
              info.start_time with
          | none => rw [hfind] at hout; simp at hout
          | some trid =>
            rw [hfind] at hout
            simp only [List.mem_singleton] at hout
            obtain ⟨ts2, hts2_mem, hts2_lt⟩ := find_request_after_spec _
              (hsorted.2 port s) info.start_time trid hfind
            have hto := (hinv.2.2 port s ts2 trid hts2_mem).resolve_left
              (fun hc => List.not_mem_nil _ hc)
            obtain ⟨ct, hct_mem, hct_port, hct_rid, hct_ts, hct_out⟩ := hto
            refine ⟨ca, hca_mem, ct, hct_mem, hca_port, hct_port, ?_, ?_, ?_⟩
            · rw [hout]
              exact hca_rid
            · rw [hout]
              exact hct_rid
            · rw [hca_ts, hct_ts]
              exact hts2_lt

/-- Instance of `sessions_links_ordered`: two requests sharing cookie
session `s1` on port 1 yield the incoming link from the earlier request. -/
theorem sessions_links_ordered_witness :
    ∃ cf ∈ [(⟨1, 100, 5, some "s1".toList, none⟩ : AddRequestCall),
            ⟨1, 101, 7, some "s1".toList, none⟩],
    ∃ ct ∈ [(⟨1, 100, 5, some "s1".toList, none⟩ : AddRequestCall),
            ⟨1, 101, 7, some "s1".toList, none⟩],
      cf.port = 1 ∧ ct.port = 1
      ∧ cf.request_id = (Link.mk 100 101).from_request_id
      ∧ ct.request_id = (Link.mk 100 101).to_request_id
      ∧ cf.start_time < ct.start_time :=
  sessions_links_ordered
    [⟨1, 100, 5, some "s1".toList, none⟩, ⟨1, 101, 7, some "s1".toList, none⟩]
    1 101 (Link.mk 100 101) (by decide)

/-! ## C2 : the flag scanner -/

theorem starLoop_sound (r : Regex)
    (hp : ∀ (s : Str) (n : Nat), n ∈ Regex.parses r s →
      n ≤ s.length ∧ Regex.RMatch r (s.take n)) :
    ∀ (fuel : Nat) (s : Str) (n : Nat), n ∈ starLoop (Regex.parses r) fuel s →
      n ≤ s.length ∧ Regex.RMatch (Regex.star r) (s.take n) := by
  intro fuel
  induction fuel with
  | zero =>
    intro s n h
    rw [List.mem_singleton.mp h]
    exact ⟨Nat.zero_le _, Regex.RMatch.starNil⟩
  | succ f ih =>
    intro s n h
    simp only [starLoop] at h
    rcases List.mem_append.mp h with h1 | h1
    · obtain ⟨n1, hn1, hmap⟩ := List.mem_flatMap.mp h1
      obtain ⟨n2, hn2, heq⟩ := List.mem_map.mp hmap
      have hf := List.mem_filter.mp hn1
      have hps := hp s n1 hf.1
      have hrec := ih (s.drop n1) n2 hn2
      have hlen2 := hrec.1
      rw [List.length_drop] at hlen2
      subst heq
      constructor
      · have := hps.1
        omega
      · rw [List.take_add]
        exact Regex.RMatch.starCons hps.2 hrec.2
    · rw [List.mem_singleton.mp h1]
      exact ⟨Nat.zero_le _, Regex.RMatch.starNil⟩

theorem parses_sound : ∀ (r : Regex) (s : Str) (n : Nat), n ∈ Regex.parses r s →
    n ≤ s.length ∧ Regex.RMatch r (s.take n) := by
  intro r
  induction r with
  | eps =>
    intro s n h
    simp only [Regex.parses, List.mem_singleton] at h
    rw [h]
    exact ⟨Nat.zero_le _, Regex.RMatch.eps⟩
  | chr c =>
    intro s n h
    cases s with
    | nil => simp [Regex.parses] at h
    | cons x t =>
      simp only [Regex.parses] at h
      split at h
      · next hx =>
        rw [List.mem_singleton.mp h]
        subst hx
        exact ⟨by simp, by simpa using Regex.RMatch.chr x⟩
      · simp at h
  | cat r1 r2 ih1 ih2 =>
    intro s n h
    simp only [Regex.parses] at h
    obtain ⟨n1, hn1, hmap⟩ := List.mem_flatMap.mp h
    obtain ⟨n2, hn2, heq⟩ := List.mem_map.mp hmap
    have h1 := ih1 s n1 hn1
    have h2 := ih2 (s.drop n1) n2 hn2
    have hlen2 := h2.1
    rw [List.length_drop] at hlen2
    subst heq
    constructor
    · have := h1.1
      omega
    · rw [List.take_add]
      exact Regex.RMatch.cat h1.2 h2.2
  | alt r1 r2 ih1 ih2 =>
    intro s n h
    simp only [Regex.parses] at h
    rcases List.mem_append.mp h with h1 | h1
    · exact ⟨(ih1 s n h1).1, Regex.RMatch.altL (ih1 s n h1).2⟩
    · exact ⟨(ih2 s n h1).1, Regex.RMatch.altR (ih2 s n h1).2⟩
  | star r ihr =>
    intro s n h
    simp only [Regex.parses] at h
    exact starLoop_sound r ihr (s.length + 1) s n h

theorem star_decomp (r q : Regex) (t : Str) (h : Regex.RMatch q t) :
    q = Regex.star r →
    t = [] ∨ ∃ s1 s2, s1 ≠ [] ∧ Regex.RMatch r s1 ∧
      Regex.RMatch (Regex.star r) s2 ∧ t = s1 ++ s2 := by
  induction h with
  | eps => intro hq; exact Regex.noConfusion hq
  | chr c => intro hq; exact Regex.noConfusion hq
  | cat h1 h2 ih1 ih2 => intro hq; exact Regex.noConfusion hq
  | altL h1 ih1 => intro hq; exact Regex.noConfusion hq
  | altR h2 ih2 => intro hq; exact Regex.noConfusion hq
  | starNil => intro hq; exact Or.inl rfl
  | starCons h1 h2 ih1 ih2 =>
    intro hq
    rename_i r2 s1 s2
    have hr : r2 = r := by
      have := (Regex.star.injEq r2 r).mp hq
      exact this
    subst hr
    by_cases hs : s1 = []
    · subst hs
      simp only [List.nil_append]
      exact ih2 rfl
    · exact Or.inr ⟨s1, s2, hs, h1, h2, rfl⟩

theorem starLoop_complete (r : Regex)
    (hr : ∀ (t s : Str), Regex.RMatch r t → t <+: s → t.length ∈ Regex.parses r s) :
    ∀ (fuel : Nat) (t s : Str), Regex.RMatch (Regex.star r) t → t <+: s →
      t.length < fuel → t.length ∈ starLoop (Regex.parses r) fuel s := by
  intro fuel
  induction fuel with
  | zero => intro t s _ _ hlt; omega
  | succ f ih =>
    intro t s hm hpre hlt
    rcases star_decomp r _ t hm rfl with htnil | ⟨s1, s2, hs1, h1, h2, heq⟩
    · subst htnil
      simp [starLoop]
    · subst heq
      have hne : s1.length ≠ 0 := by simp [hs1]
      obtain ⟨u, hu⟩ := hpre
      have hsz : s = s1 ++ (s2 ++ u) := by rw [← hu, List.append_assoc]
      simp only [starLoop]
      apply List.mem_append.mpr
      left
      apply List.mem_flatMap.mpr
      refine ⟨s1.length, ?_, ?_⟩
      · apply List.mem_filter.mpr
        refine ⟨hr s1 s h1 ⟨s2 ++ u, hsz.symm⟩, by simpa using hne⟩
      · apply List.mem_map.mpr
        refine ⟨s2.length, ?_, by simp⟩
        apply ih s2 (s.drop s1.length) h2
        · refine ⟨u, ?_⟩
          rw [hsz, List.drop_left]
        · rw [List.length_append] at hlt
          omega

theorem parses_complete : ∀ (r : Regex) (t s : Str), Regex.RMatch r t → t <+: s →
    t.length ∈ Regex.parses r s := by
  intro r
  induction r with
  | eps =>
    intro t s hm _
    cases hm
    simp [Regex.parses]
  | chr c =>
    intro t s hm hpre
    cases hm
    obtain ⟨u, hu⟩ := hpre
    rw [← hu]
    simp [Regex.parses]
  | cat r1 r2 ih1 ih2 =>
    intro t s hm hpre
    cases hm with
    | cat h1 h2 =>
      rename_i s1 s2
      obtain ⟨u, hu⟩ := hpre
      have hsz : s = s1 ++ (s2 ++ u) := by rw [← hu, List.append_assoc]
      simp only [Regex.parses]
      apply List.mem_flatMap.mpr
      refine ⟨s1.length, ih1 s1 s h1 ⟨s2 ++ u, hsz.symm⟩, ?_⟩
      apply List.mem_map.mpr
      refine ⟨s2.length, ?_, by simp⟩
      apply ih2 s2 (s.drop s1.length) h2
      refine ⟨u, ?_⟩
      rw [hsz, List.drop_left]
  | alt r1 r2 ih1 ih2 =>
    intro t s hm hpre
    simp only [Regex.parses]
    cases hm with
    | altL h1 => exact List.mem_append.mpr (Or.inl (ih1 t s h1 hpre))
    | altR h2 => exact List.mem_append.mpr (Or.inr (ih2 t s h2 hpre))
  | star r ihr =>
    intro t s hm hpre
    simp only [Regex.parses]
    apply starLoop_complete r ihr (s.length + 1) t s hm hpre
    have := List.IsPrefix.length_le hpre
    omega

theorem matchAt_some (r : Regex) (s : Str) (n : Nat) (h : Regex.matchAt r s = some n) :
    n ≤ s.length ∧ Regex.RMatch r (s.take n) := by
  have hm : n ∈ Regex.parses r s := by
    cases hl : Regex.parses r s with
    | nil => rw [Regex.matchAt, hl] at h; simp at h
    | cons a l =>
      rw [Regex.matchAt, hl] at h
      simp only [List.head?, Option.some.injEq] at h
      rw [← h]
      exact List.mem_cons_self a l
  exact parses_sound r s n hm

theorem matchAt_none (r : Regex) (s : Str) (h : Regex.matchAt r s = none) :
    ∀ t, Regex.RMatch r t → ¬ t <+: s := by
  intro t hm hpre
  have hc := parses_complete r t s hm hpre
  rw [Regex.matchAt] at h
  cases hl : Regex.parses r s with
  | nil => rw [hl] at hc; simp at hc
  | cons a l => rw [hl] at h; simp at h

theorem matchAt_take_length (r : Regex) (s : Str) (i n : Nat)
    (h : Regex.matchAt r (s.drop i) = some n) :
    ((s.drop i).take n).length = n := by
  have := (matchAt_some r (s.drop i) n h).1
  rw [List.length_take]
  omega

theorem findIterLoop_sound (r : Regex) (s : Str) :
    ∀ (fuel i : Nat),
      (∀ im ∈ Regex.findIterLoop r fuel i s,
        i ≤ im.1 ∧ im.1 + im.2.length ≤ s.length ∧
        im.2 = (s.drop im.1).take im.2.length ∧ Regex.RMatch r im.2)
      ∧ List.Chain' (fun a b : Nat × Str => a.1 + max 1 a.2.length ≤ b.1)
          (Regex.findIterLoop r fuel i s) := by
  intro fuel
  induction fuel with
  | zero => intro i; simp [Regex.findIterLoop]
  | succ f ih =>
    intro i
    by_cases hi : i ≤ s.length
    · simp only [Regex.findIterLoop, if_pos hi]
      cases hma : Regex.matchAt r (s.drop i) with
      | none =>
        constructor
        · intro im him
          have hmem := (ih (i + 1)).1 im him
          exact ⟨by omega, hmem.2⟩
        · exact (ih (i + 1)).2
      | some n =>
        have hsound := matchAt_some r (s.drop i) n hma
        have hlen := matchAt_take_length r s i n hma
        have hlds : n ≤ s.length - i := by
          have := hsound.1
          rw [List.length_drop] at this
          omega
        have hstep1 : 1 ≤ (if n = 0 then 1 else n) := by split <;> omega
        constructor
        · intro im him
          rcases List.mem_cons.mp him with he | hrest
          · rw [he]
            refine ⟨le_refl i, ?_, ?_, hsound.2⟩
            · rw [hlen]
              omega
            · rw [hlen]
          · have hmem := (ih (i + (if n = 0 then 1 else n))).1 im hrest
            exact ⟨by omega, hmem.2⟩
        · apply List.chain'_cons'.mpr
          constructor
          · intro b hb
            have hbmem : b ∈ Regex.findIterLoop r f (i + (if n = 0 then 1 else n)) s := by
              cases hl : Regex.findIterLoop r f (i + (if n = 0 then 1 else n)) s with
              | nil => rw [hl] at hb; simp at hb
              | cons a l =>
                rw [hl] at hb
                simp only [List.head?, Option.mem_def, Option.some.injEq] at hb
                rw [hb]
                exact List.mem_cons_self b l
            have hmem := (ih (i + (if n = 0 then 1 else n))).1 b hbmem
            have hj1 := hmem.1
            show i + max 1 ((s.drop i).take n).length ≤ b.1
            rw [hlen]
            have hmaxstep : (if n = 0 then 1 else n) = max 1 n := by split <;> omega
            omega
          · exact (ih (i + (if n = 0 then 1 else n))).2
    · simp only [Regex.findIterLoop, if_neg hi]
      simp

theorem findIterLoop_complete (r : Regex) (s : Str) :
    ∀ (fuel i : Nat), s.length + 1 ≤ fuel + i →
      ∀ j, i ≤ j → j ≤ s.length →
        (∃ t, Regex.RMatch r t ∧ t <+: s.drop j) →
        ∃ im ∈ Regex.findIterLoop r fuel i s, im.1 ≤ j ∧ j < im.1 + max 1 im.2.length := by
  intro fuel
  induction fuel with
  | zero =>
    intro i hfe j hij hjs _
    exact absurd (le_trans hij hjs) (by omega)
  | succ f ih =>
    intro i hfe j hij hjs hex
    have hi : i ≤ s.length := le_trans hij hjs
    simp only [Regex.findIterLoop, if_pos hi]
    cases hma : Regex.matchAt r (s.drop i) with
    | none =>
      have hne : i ≠ j := by
        intro he
        subst he
        obtain ⟨t, hmt, hpt⟩ := hex
        exact matchAt_none r (s.drop i) hma t hmt hpt
      exact ih (i + 1) (by omega) j (by omega) hjs hex
    | some n =>
      have hlen := matchAt_take_length r s i n hma
      have hmaxstep : (if n = 0 then 1 else n) = max 1 n := by split <;> omega
      show ∃ im ∈ (i, (s.drop i).take n) ::
          Regex.findIterLoop r f (i + (if n = 0 then 1 else n)) s,
        im.1 ≤ j ∧ j < im.1 + max 1 im.2.length
      by_cases hcov : j < i + max 1 n
      · refine ⟨(i, (s.drop i).take n), List.mem_cons_self _ _, hij, ?_⟩
        show j < i + max 1 ((s.drop i).take n).length
        rw [hlen]
        exact hcov
      · rw [hmaxstep]
        have hrec := ih (i + max 1 n) (by omega) j (by omega) hjs hex
        obtain ⟨im, him, h1, h2⟩ := hrec
        exact ⟨im, List.mem_cons_of_mem _ him, h1, h2⟩

/-- C2 (counterexample): the claim says the reported offset is the byte
offset of the match within the body buffer.  In the code the body is first
decoded to a Python `str` and `match.start()` is a character index into that
string.  For the two-character body "éa" (é = U+00E9, two bytes in UTF-8)
and a pattern matching "a", `find_body_flags` reports offset 1 — the
character index — while the byte offset of the match inside the UTF-8 body
buffer is 2. -/
theorem find_body_flags_byte_offset_cex :
    find_body_flags [Char.ofNat 233, Char.ofNat 97] (Regex.chr (Char.ofNat 97)) =
      [(1, [Char.ofNat 97])]
    ∧ utf8Offset [Char.ofNat 233, Char.ofNat 97] 1 = 2
    ∧ (1 : Nat) ≠ 2 := by
  refine ⟨by decide, by decide, by decide⟩

/-- C2 (amended): `find_body_flags` returns one `(match.start(),
match.group(0))` pair per `re.finditer` match over the decoded body
string, where the offset is a character offset into the decoded string
(not a byte offset into the raw body): every reported pair consists of a
string matching the pattern that occurs in the body at that character
offset; the reported spans are in strictly increasing positions and do
not overlap; and every position of the body at which some match of the
pattern begins is covered by the span of a reported match. -/
theorem find_body_flags_finditer_spec (body : Str) (pattern : Regex) :
    (∀ im ∈ find_body_flags body pattern,
      Regex.RMatch pattern im.2
      ∧ im.1 + im.2.length ≤ body.length
      ∧ im.2 = (body.drop im.1).take im.2.length)
    ∧ List.Chain' (fun a b : Nat × Str => a.1 + max 1 a.2.length ≤ b.1)
        (find_body_flags body pattern)
    ∧ (∀ j, j ≤ body.length →
        (∃ t, Regex.RMatch pattern t ∧ t <+: body.drop j) →
        ∃ im ∈ find_body_flags body pattern,
          im.1 ≤ j ∧ j < im.1 + max 1 im.2.length) := by
  have hs := findIterLoop_sound pattern body (body.length + 1) 0
  refine ⟨?_, hs.2, ?_⟩
  · intro im him
    have hmem := hs.1 im him
    exact ⟨hmem.2.2.2, hmem.2.1, hmem.2.2.1⟩
  · intro j hj hex
    exact findIterLoop_complete pattern body (body.length + 1) 0 (by omega) j
      (Nat.zero_le _) hj hex

/-- Witness: for the one-character body "a" and the pattern matching "a",
the completeness part of the amended theorem produces a reported match
covering position 0. -/
theorem find_body_flags_finditer_spec_witness :
    ∃ im ∈ find_body_flags [Char.ofNat 97] (Regex.chr (Char.ofNat 97)),
      im.1 ≤ 0 ∧ 0 < im.1 + max 1 im.2.length :=
  (find_body_flags_finditer_spec [Char.ofNat 97] (Regex.chr (Char.ofNat 97))).2.2 0
    (by decide) ⟨[Char.ofNat 97], Regex.RMatch.chr _, ⟨[], by simp⟩⟩
